import Mathlib

/-!
# Image processor (`src/app.js`): layer history and pixel filters

A shallow embedding of the `App` object of `src/app.js`.

* The two closure variables `undoStack` and `redoStack` become the fields of
  the state record `App`; every click handler is a function on that record.
  A JavaScript array is a `List` whose LAST element is the top of the stack
  (`push` appends at the end, `pop` removes the last element).
* A canvas bitmap and an `ImageData` are a width, a height and the flat
  row-major RGBA byte sequence (`data[(y * width + x) * 4 + k]`), exactly the
  layout the handlers index.
* The handlers call into the Canvas 2D API (`drawImage`, `getImageData`,
  `putImageData`, `new ImageData`).  Those calls are modelled after the HTML
  standard: the exceptions they raise on zero-sized bitmaps, and the default
  `source-over` compositing of `drawImage`.
* The `data` of a `Canvas` are the bytes `getImageData` returns for it.  The
  bitmap itself holds colour premultiplied by alpha, so `putImageData` stores
  bytes that read back changed where alpha is below 255 (`storeData`); the
  direction in which a browser rounds an exact half on the way back is a
  parameter `tieUp` of the model.
* The kernels of `convoluteFloat32` are lists of integer weights.  Its
  accumulators are integer-valued doubles: every product and sum is rounded to
  53 significant bits and every store into the `Float32Array` to 24
  (`toDouble`, `toFloat32`), which changes nothing below `2 ^ 24`.
-/

namespace ImageProcessor

/-! ## Data model -/

/-- Exceptions that abort a handler.  `TypeError` is the JavaScript error of
reading a property of `undefined`; the other two are the `DOMException`s the
Canvas 2D API raises on bitmaps with a zero dimension. -/
inductive JSError where
  | TypeError
  | InvalidStateError
  | IndexSizeError
  deriving DecidableEq, Repr

/-- A canvas bitmap: `width`, `height` and the RGBA bytes in row-major order. -/
structure Canvas where
  width : Nat
  height : Nat
  data : List Nat
  deriving DecidableEq, Repr

/-- An `ImageData` object: `width`, `height` and its `Uint8ClampedArray`. -/
structure ImageData where
  width : Nat
  height : Nat
  data : List Nat
  deriving DecidableEq, Repr

/-- The object `convoluteFloat32` returns: `width`, `height` and a
`Float32Array` (its entries are integer-valued, after rounding to 24
significant bits). -/
structure FloatImage where
  width : Nat
  height : Nat
  data : List Int
  deriving DecidableEq, Repr

/-- An entry of `undoStack` / `redoStack`: `{canvas, type}` (app.js lines 8-12).
The `data` property copied by `createNextLayer` is `undefined` on the layer
built by `onSelectImage` and therefore on every layer; it is not modelled. -/
structure Layer where
  canvas : Canvas
  type : String
  deriving DecidableEq, Repr

/-- The mutable state of `App`: the closure variables `undoStack` and
`redoStack` (app.js lines 13 and 18).  The top of a stack is the last element. -/
structure App where
  undoStack : List Layer
  redoStack : List Layer
  deriving DecidableEq, Repr

/-- A bitmap is well formed when it holds `width * height` RGBA quadruples of
bytes: the guarantee of a canvas bitmap and of a `Uint8ClampedArray`. -/
def Canvas.WF (c : Canvas) : Prop :=
  c.data.length = c.width * c.height * 4 ∧ ∀ v ∈ c.data, v ≤ 255

instance (c : Canvas) : Decidable c.WF := by
  unfold Canvas.WF; exact inferInstance

/-- Every pixel of the bitmap is fully opaque (alpha byte 255). -/
def Canvas.Opaque (c : Canvas) : Prop :=
  ∀ p, p < c.width * c.height → c.data.getD (4 * p + 3) 0 = 255

instance (c : Canvas) : Decidable c.Opaque := by
  unfold Canvas.Opaque; exact inferInstance

/-- Parameter values of the flip filter (app.js lines 21-22). -/
def FLIP_HORIZONTAL : Nat := 1

/-- Parameter value of the vertical flip (app.js line 22). -/
def FLIP_VERTICAL : Nat := 2

/-! ## Canvas 2D API -/

/-- `document.createElement('canvas')` followed by the assignments of `width`
and `height`: a bitmap of transparent black pixels. -/
def Canvas.blank (w h : Nat) : Canvas :=
  { width := w, height := h, data := List.replicate (w * h * 4) 0 }

/-- Division rounded to the nearest integer (halves upwards). -/
def roundDiv (n d : Nat) : Nat := (2 * n + d) / (2 * d)

/-- Porter-Duff `source-over` of one non-premultiplied RGBA pixel `s` over the
backdrop pixel `d`, at `globalAlpha = 1`: with alphas in units of 1/255,
`ao = as + ab (1 - as)` and `co = (cs as + cb ab (1 - as)) / ao`, a fully
transparent result being transparent black.  The exact value is rounded to the
nearest byte; the rounding a browser applies at alphas strictly between 0 and
255 is implementation defined, and the results below rest on alphas 0 and 255
only, where the formula is exact: an opaque source replaces the backdrop and a
transparent source leaves it. -/
def sourceOver (sr sg sb sa dr dg db da : Nat) : List Nat :=
  let A := 255 * sa + da * (255 - sa)
  let ch := fun (cs cb : Nat) =>
    if A = 0 then 0 else roundDiv (255 * cs * sa + cb * da * (255 - sa)) A
  [ch sr dr, ch sg dg, ch sb db, roundDiv A 255]

/-- Pixel-wise `source-over` of the source bytes over the backdrop bytes of a
bitmap of the same dimensions. -/
def compositeData : List Nat → List Nat → List Nat
  | sr :: sg :: sb :: sa :: s, dr :: dg :: db :: da :: d =>
    sourceOver sr sg sb sa dr dg db da ++ compositeData s d
  | _, d => d

/-- The check `drawImage` makes of a canvas argument: a source canvas with a
zero horizontal or vertical dimension raises `InvalidStateError`. -/
def checkUsable (src : Canvas) : Except JSError Unit :=
  if src.width = 0 ∨ src.height = 0 then .error .InvalidStateError else .ok ()

/-- `dstCtx.drawImage(src, 0, 0)` with the identity transform onto a bitmap of
the same dimensions as `src`. -/
def drawImage (src dst : Canvas) : Except JSError Canvas := do
  checkUsable src
  pure { dst with data := compositeData src.data dst.data }

/-- `ctx.getImageData(0, 0, canvas.width, canvas.height)`: the bytes of the
whole bitmap; a zero width or height raises `IndexSizeError`. -/
def getImageData (c : Canvas) : Except JSError ImageData :=
  if c.width = 0 ∨ c.height = 0 then .error .IndexSizeError
  else .ok { width := c.width, height := c.height, data := c.data }

/-- The colour byte `c` of a pixel of alpha `a` as the bitmap holds it:
premultiplied by alpha, `c * a / 255` rounded to the nearest integer (the
quotient is never a half). -/
def premultiply (c a : Nat) : Nat := roundDiv (c * a) 255

/-- The colour byte `getImageData` returns for the premultiplied byte `p` of a
pixel of alpha `a`: `p * 255 / a` rounded to the nearest integer and capped at
255, and 0 for a fully transparent pixel.  Where the quotient is exactly a half
the direction is the browser's choice: `tieUp p a` tells whether it rounds up. -/
def unpremultiply (tieUp : Nat → Nat → Bool) (p a : Nat) : Nat :=
  if a = 0 then 0
  else
    let q := p * 255 / a
    let r2 := 2 * (p * 255 % a)
    min 255 (if r2 < a then q else if a < r2 then q + 1 else if tieUp p a then q + 1 else q)

/-- The colour byte read back after the byte `c` has been stored in a pixel of
alpha `a`. -/
def storedByte (tieUp : Nat → Nat → Bool) (c a : Nat) : Nat :=
  unpremultiply tieUp (premultiply c a) a

/-- The bytes read back after RGBA bytes have been stored in a bitmap, pixel by
pixel: colour goes through the premultiplied store, alpha is kept. -/
def storeData (tieUp : Nat → Nat → Bool) : List Nat → List Nat
  | r :: g :: b :: a :: rest =>
    storedByte tieUp r a :: storedByte tieUp g a :: storedByte tieUp b a :: a ::
      storeData tieUp rest
  | rest => rest

/-- The tie rule that rounds every half up. -/
def halfUp : Nat → Nat → Bool := fun _ _ => true

/-- The tie rule that rounds every half down. -/
def halfDown : Nat → Nat → Bool := fun _ _ => false

/-- `ctx.putImageData(imgData, 0, 0)` for an `ImageData` covering the whole
bitmap: the bytes replace the bitmap, without compositing.  The bitmap holds
premultiplied colour, so `data` (the bytes `getImageData` returns) is what
reads back from the store. -/
def putImageData (tieUp : Nat → Nat → Bool) (c : Canvas) (img : ImageData) : Canvas :=
  { c with data := storeData tieUp img.data }

/-- `new ImageData(w, h)`: transparent black; a zero dimension raises
`IndexSizeError`. -/
def newImageData (w h : Nat) : Except JSError ImageData :=
  if w = 0 ∨ h = 0 then .error .IndexSizeError
  else .ok { width := w, height := h, data := List.replicate (w * h * 4) 0 }

/-- Conversion of the non-negative number `num / den` stored into a
`Uint8ClampedArray` (`ToUint8Clamp`): clamp to 255, round to the nearest
integer, a half going to the even neighbour. -/
def toUint8Clamp (num den : Nat) : Nat :=
  if 255 * den ≤ num then 255
  else
    let f := num / den
    let r2 := 2 * (num % den)
    if den < r2 then f + 1
    else if r2 < den then f
    else if f % 2 = 0 then f else f + 1

/-! ## Layer history -/

/-- The body of `img.onload` in `onSelectImage` (app.js lines 60-64): the
stacks are replaced by the single uploaded layer and the empty stack. -/
def onSelectImage (layer : Layer) (_s : App) : App :=
  { undoStack := [layer], redoStack := [] }

/-- `createNextLayer` (app.js lines 260-272): a fresh canvas of the size of the
top layer, the top layer drawn onto it, and the top layer's `type`. -/
def createNextLayer (s : App) : Except JSError Layer :=
  match s.undoStack.getLast? with
  | none => .error .TypeError
  | some layer => do
    let dstCanvas := Canvas.blank layer.canvas.width layer.canvas.height
    let drawn ← drawImage layer.canvas dstCanvas
    pure { canvas := drawn, type := layer.type }

/-- `onUndoClick` (app.js lines 220-225). -/
def onUndoClick (s : App) : App :=
  if s.undoStack.length > 1 then
    match s.undoStack.getLast? with
    | some top =>
      { undoStack := s.undoStack.dropLast, redoStack := s.redoStack ++ [top] }
    | none => s
  else s

/-- `onRedoClick` (app.js lines 228-233). -/
def onRedoClick (s : App) : App :=
  if s.redoStack.length > 0 then
    match s.redoStack.getLast? with
    | some top =>
      { undoStack := s.undoStack ++ [top], redoStack := s.redoStack.dropLast }
    | none => s
  else s

/-! ## Grayscale -/

/-- The loop of `onGrayscaleClick` (app.js lines 80-85) over the byte array,
four bytes at a time.  `parseInt` of the quotient of a non-negative integer by
3 is its integer part; the store into the `Uint8ClampedArray` clamps. -/
def grayscaleLoop : List Nat → List Nat
  | r :: g :: b :: a :: rest =>
    let lightness := (r + g + b) / 3
    toUint8Clamp lightness 1 :: toUint8Clamp lightness 1 ::
      toUint8Clamp lightness 1 :: a :: grayscaleLoop rest
  | rest => rest

/-- The drawing part of `onGrayscaleClick` (app.js lines 77-86) on the canvas
of the new layer. -/
def grayscaleCanvas (tieUp : Nat → Nat → Bool) (c : Canvas) : Except JSError Canvas := do
  let imgData ← getImageData c
  let pixels := grayscaleLoop imgData.data
  pure (putImageData tieUp c { imgData with data := pixels })

/-- `onGrayscaleClick` (app.js lines 72-89). -/
def onGrayscaleClick (tieUp : Nat → Nat → Bool) (s : App) : Except JSError App :=
  if s.undoStack.length < 1 then .ok s
  else do
    let layer ← createNextLayer s
    let canvas ← grayscaleCanvas tieUp layer.canvas
    pure { s with undoStack := s.undoStack ++ [{ layer with canvas := canvas }] }

/-! ## Blur -/

/-- `onBlurClick` (app.js lines 92-122).  The 49 `drawImage` passes of lines
99-119 composite the new canvas onto itself with fractional floating-point
`globalAlpha`; their effect on the bitmap is the parameter `blurPasses`, so
that every statement about the history holds whatever those passes compute. -/
def onBlurClick (blurPasses : Canvas → Canvas) (s : App) : Except JSError App :=
  if s.undoStack.length < 1 then .ok s
  else do
    let layer ← createNextLayer s
    pure { s with
      undoStack := s.undoStack ++ [{ layer with canvas := blurPasses layer.canvas }] }

/-! ## Flip -/

/-- The four bytes of the pixel at column `x`, row `y` of a bitmap of width `w`. -/
def pixelAt (data : List Nat) (w x y : Nat) : List Nat :=
  let off := (y * w + x) * 4
  [data.getD off 0, data.getD (off + 1) 0, data.getD (off + 2) 0, data.getD (off + 3) 0]

/-- The image `ctx.drawImage(layer.canvas, posX, posY, width, height)` lays on
the bitmap under `ctx.scale(sx, sy)` (app.js lines 132-136): with
`sx = -1, posX = -width` the device pixel `(x, y)` receives the source pixel
`(width - 1 - x, y)`; with `sy = -1, posY = -height` it receives
`(x, height - 1 - y)`; each test `flipType === ...` acts on its own axis. -/
def mirrorData (flipType w h : Nat) (data : List Nat) : List Nat :=
  (List.range h).flatMap fun y =>
    (List.range w).flatMap fun x =>
      pixelAt data w
        (if flipType = FLIP_HORIZONTAL then w - 1 - x else x)
        (if flipType = FLIP_VERTICAL then h - 1 - y else y)

/-- The drawing part of `onFlipClick` (app.js lines 131-137) on the canvas of
the new layer.  The source of `drawImage` is that same canvas: the standard has
the source copied before it is drawn, and the mirrored copy is composited with
`source-over` onto the bitmap, which still holds the unflipped picture. -/
def flipCanvas (flipType : Nat) (c : Canvas) : Except JSError Canvas := do
  checkUsable c
  pure { c with
    data := compositeData (mirrorData flipType c.width c.height c.data) c.data }

/-- `onFlipClick` (app.js lines 126-140). -/
def onFlipClick (flipType : Nat) (s : App) : Except JSError App :=
  if s.undoStack.length < 1 then .ok s
  else do
    let layer ← createNextLayer s
    let canvas ← flipCanvas flipType layer.canvas
    pure { s with undoStack := s.undoStack ++ [{ layer with canvas := canvas }] }

/-! ## Edge detection -/

/-- `Math.round(Math.sqrt(n))`: the least `s` with `n ≤ s * s + s`. -/
def roundSqrt (n : Nat) : Nat :=
  ((List.range (n + 1)).find? fun s => n ≤ s * s + s).getD 0

/-- `Math.min(hi - 1, Math.max(0, v))` (app.js lines 199-200). -/
def clampIndex (hi : Nat) (v : Int) : Nat :=
  (min ((hi : Int) - 1) (max 0 v)).toNat

/-- The source offset `srcOff` of app.js lines 199-201 for the output pixel
`(x, y)` and the kernel cell `(cx, cy)`. -/
def srcOff (sw sh halfSide x y cx cy : Nat) : Nat :=
  let scy := clampIndex sh ((y : Int) + cy - halfSide)
  let scx := clampIndex sw ((x : Int) + cx - halfSide)
  (scy * sw + scx) * 4

/-- The least candidate `c ≥ e` with `m < 2 ^ (bits + c)`, searched over at most
`fuel` candidates: the number of low bits of `m` that do not fit in `bits`
bits. -/
def droppedBits (bits m : Nat) : Nat → Nat → Nat
  | 0, e => e
  | fuel + 1, e => if m < 2 ^ (bits + e) then e else droppedBits bits m fuel (e + 1)

/-- The integer nearest to `n` among those a binary floating-point format with
`bits` significant bits represents, a tie going to the even significand
(below the overflow threshold of the format).  An integer of magnitude below
`2 ^ bits` is represented exactly. -/
def roundToBits (bits : Nat) (n : Int) : Int :=
  let m := n.natAbs
  if m < 2 ^ bits then n
  else
    let e := droppedBits bits m 2048 0
    let q := m / 2 ^ e
    let r := m % 2 ^ e
    let up :=
      if 2 * r < 2 ^ e then q
      else if 2 ^ e < 2 * r then q + 1
      else if q % 2 = 0 then q else q + 1
    if n < 0 then -((up * 2 ^ e : Nat) : Int) else ((up * 2 ^ e : Nat) : Int)

/-- The result of a JavaScript arithmetic operation whose exact value is the
integer `n`: the nearest double. -/
def toDouble (n : Int) : Int := roundToBits 53 n

/-- The value read back after the integer-valued double `n` has been stored in
a `Float32Array`. -/
def toFloat32 (n : Int) : Int := roundToBits 24 n

/-- The accumulator of channel `k` after the two kernel loops of app.js lines
197-208: `r`, `g`, `b`, `a` are the instances `k = 0, 1, 2, 3`.  The weights
are integers; each product and each sum is rounded to a double. -/
def convAcc (src : List Nat) (sw sh : Nat) (weights : List Int)
    (side halfSide x y k : Nat) : Int :=
  (List.range side).foldl (fun acc cy =>
    (List.range side).foldl (fun acc cx =>
      let wt := toDouble (weights.getD (cy * side + cx) 0)
      toDouble (acc +
        toDouble ((src.getD (srcOff sw sh halfSide x y cx cy + k) 0 : Int) * wt))) acc) 0

/-- The four entries `convoluteFloat32` stores at `dstOff` for the output pixel
`(x, y)` (app.js lines 193-212). -/
def convPixel (src : List Nat) (sw sh : Nat) (weights : List Int) (side halfSide : Nat)
    (alphaFac : Int) (x y : Nat) : List Int :=
  let r := convAcc src sw sh weights side halfSide x y 0
  let g := convAcc src sw sh weights side halfSide x y 1
  let b := convAcc src sw sh weights side halfSide x y 2
  let a := convAcc src sw sh weights side halfSide x y 3
  [toFloat32 r, toFloat32 g, toFloat32 b,
    toFloat32 (toDouble (a + toDouble (alphaFac * toDouble (255 - a))))]

/-- `convoluteFloat32` (app.js lines 174-216).  The output array is written
once per pixel in raster order, at `dstOff = (y * w + x) * 4`. -/
def convoluteFloat32 (pixels : ImageData) (weights : List Int) (opaqueOutput : Bool) :
    FloatImage :=
  let side := roundSqrt weights.length
  let halfSide := side / 2
  let src := pixels.data
  let sw := pixels.width
  let sh := pixels.height
  let w := sw
  let h := sh
  let alphaFac : Int := if opaqueOutput then 1 else 0
  { width := w
    height := h
    data := (List.range h).flatMap fun y =>
      (List.range w).flatMap fun x =>
        convPixel src sw sh weights side halfSide alphaFac x y }

/-- The vertical Sobel kernel (app.js lines 152-154). -/
def sobelVertical : List Int := [-1, -2, -1, 0, 0, 0, 1, 2, 1]

/-- The horizontal Sobel kernel (app.js lines 156-158). -/
def sobelHorizontal : List Int := [-1, 0, 1, -2, 0, 2, -1, 0, 1]

/-- The loop of `onEdgesClick` (app.js lines 160-167) over `n` pixels: the
bytes stored at `i = 4 * p`, ..., `i + 3`. -/
def edgesLoop (vertical horizontal : FloatImage) (n : Nat) : List Nat :=
  (List.range n).flatMap fun p =>
    let i := 4 * p
    let v := (vertical.data.getD i 0).natAbs
    let h := (horizontal.data.getD i 0).natAbs
    [toUint8Clamp v 1, toUint8Clamp h 1, toUint8Clamp (v + h) 4, 255]

/-- The drawing part of `onEdgesClick` (app.js lines 149-169) on the canvas of
the new layer. -/
def edgesCanvas (tieUp : Nat → Nat → Bool) (c : Canvas) : Except JSError Canvas := do
  let imageData ← getImageData c
  let vertical := convoluteFloat32 imageData sobelVertical false
  let horizontal := convoluteFloat32 imageData sobelHorizontal false
  let id ← newImageData vertical.width vertical.height
  let data := edgesLoop vertical horizontal (id.data.length / 4)
  pure (putImageData tieUp c { id with data := data })

/-- `onEdgesClick` (app.js lines 144-171). -/
def onEdgesClick (tieUp : Nat → Nat → Bool) (s : App) : Except JSError App :=
  if s.undoStack.length < 1 then .ok s
  else do
    let layer ← createNextLayer s
    let canvas ← edgesCanvas tieUp layer.canvas
    pure { s with undoStack := s.undoStack ++ [{ layer with canvas := canvas }] }

/-! ## The handlers as a transition system -/

/-- The five filter buttons. -/
inductive Filter where
  | grayscale
  | blur
  | flipHorizontal
  | flipVertical
  | edges
  deriving DecidableEq, Repr

/-- The buttons bound in `init` (app.js lines 29-35) that act on the history. -/
inductive Op where
  | filter (f : Filter)
  | undo
  | redo
  deriving DecidableEq, Repr

/-- The handler `init` binds to a filter button. -/
def applyFilter (tieUp : Nat → Nat → Bool) (blurPasses : Canvas → Canvas) (f : Filter)
    (s : App) :
    Except JSError App :=
  match f with
  | .grayscale => onGrayscaleClick tieUp s
  | .blur => onBlurClick blurPasses s
  | .flipHorizontal => onFlipClick FLIP_HORIZONTAL s
  | .flipVertical => onFlipClick FLIP_VERTICAL s
  | .edges => onEdgesClick tieUp s

/-- One click.  A handler that raises is abandoned by the event loop; every
exception of a filter handler is raised before its `undoStack.push`, so the
state is then the state before the click. -/
def step (tieUp : Nat → Nat → Bool) (blurPasses : Canvas → Canvas) (s : App) (op : Op) :
    App :=
  match op with
  | .filter f =>
    match applyFilter tieUp blurPasses f s with
    | .ok s' => s'
    | .error _ => s
  | .undo => onUndoClick s
  | .redo => onRedoClick s

/-- A finite sequence of clicks, left to right. -/
def run (tieUp : Nat → Nat → Bool) (blurPasses : Canvas → Canvas) (s : App)
    (ops : List Op) : App :=
  ops.foldl (step tieUp blurPasses) s

/-- The freshly constructed `App` (app.js lines 13 and 18). -/
def App.empty : App := { undoStack := [], redoStack := [] }

/-- The 2x2 sample bitmap: red, green, blue, white, all opaque. -/
def sample2x2 : Canvas :=
  { width := 2, height := 2,
    data := [255, 0, 0, 255, 0, 255, 0, 255, 0, 0, 255, 255, 255, 255, 255, 255] }

/-- A 2x1 bitmap with an opaque pixel on the left and a transparent one on the
right. -/
def halfTransparent : Canvas :=
  { width := 2, height := 1, data := [10, 20, 30, 255, 0, 0, 0, 0] }

/-- A 1x2 bitmap: a black pixel above a white one, both opaque. -/
def blackOverWhite : Canvas :=
  { width := 1, height := 2, data := [0, 0, 0, 255, 255, 255, 255, 255] }

/-- A filter as a function of the buffer: the canvas of the layer the filter's
handler pushes when `c` is the canvas on top of `undoStack`. -/
def filterCanvas (tieUp : Nat → Nat → Bool) (blurPasses : Canvas → Canvas) (f : Filter)
    (c : Canvas) :
    Except JSError Canvas := do
  let s ← applyFilter tieUp blurPasses f
    { undoStack := [{ canvas := c, type := "" }], redoStack := [] }
  match s.undoStack.getLast? with
  | some layer => pure layer.canvas
  | none => .error .TypeError

/-- A loaded history whose only layer has a canvas of width and height 0. -/
def zeroSizedApp : App :=
  { undoStack := [{ canvas := { width := 0, height := 0, data := [] }, type := "image/png" }],
    redoStack := [] }

/-- The layer of an upload of the 2x2 sample as a PNG. -/
def sampleLayer : Layer := { canvas := sample2x2, type := "image/png" }

/-- The layer the grayscale filter derives from `sampleLayer`. -/
def sampleGrayLayer : Layer :=
  { canvas := { width := 2, height := 2,
                data := [85, 85, 85, 255, 85, 85, 85, 255, 85, 85, 85, 255,
                         255, 255, 255, 255] },
    type := "image/png" }

/-- A 1x2 bitmap with an opaque pixel on top and a transparent one below. -/
def halfTransparentColumn : Canvas :=
  { width := 1, height := 2, data := [10, 20, 30, 255, 0, 0, 0, 0] }

/-- The buffer both flip buttons leave on top of `halfTransparent`: the opaque
pixel twice. -/
def bothOpaqueRow : Canvas :=
  { width := 2, height := 1, data := [10, 20, 30, 255, 10, 20, 30, 255] }

/-- The buffer the vertical flip leaves on top of `halfTransparentColumn`. -/
def bothOpaqueColumn : Canvas :=
  { width := 1, height := 2, data := [10, 20, 30, 255, 10, 20, 30, 255] }

/-- The clamp of the specification: `clamp v lo hi` is `v` brought into
`[lo, hi]`. -/
def clamp (v lo hi : Int) : Int :=
  if v < lo then lo else if hi < v then hi else v

/-- The link `onDownloadClick` builds and clicks: its file name and the canvas
whose data URL is its `href`. -/
structure DownloadLink where
  download : String
  canvas : Canvas
  deriving DecidableEq, Repr

/-- `onDownloadClick` (app.js lines 236-245): nothing on an empty `undoStack`,
otherwise a link to the top layer named `result.` followed by the part of its
`type` after the last `/`. -/
def onDownloadClick (s : App) : Except JSError (Option DownloadLink) :=
  if s.undoStack.length < 1 then .ok none
  else
    match s.undoStack.getLast? with
    | none => .error .TypeError
    | some layer =>
      .ok (some { download := "result." ++ ((layer.type.splitOn "/").getLast?.getD ""),
                  canvas := layer.canvas })

/-- `updateImage` (app.js lines 248-256): nothing on an empty `undoStack`,
otherwise the layer whose data URL becomes the background of `#image`. -/
def updateImage (s : App) : Except JSError (Option Layer) :=
  if s.undoStack.length < 1 then .ok none
  else
    match s.undoStack.getLast? with
    | none => .error .TypeError
    | some layer => .ok (some layer)

/-- The layer the horizontal flip derives from `sampleLayer`. -/
def sampleFlipLayer : Layer :=
  { canvas := { width := 2, height := 2,
                data := [0, 255, 0, 255, 255, 0, 0, 255,
                         255, 255, 255, 255, 0, 0, 255, 255] },
    type := "image/png" }

/-- A 2x2 bitmap of four opaque pixels that share the red byte 7. -/
def constantRed : Canvas :=
  { width := 2, height := 2,
    data := [7, 1, 2, 255, 7, 3, 4, 255, 7, 5, 6, 255, 7, 8, 9, 255] }

/-! ## The opacities of the blur passes -/

/-- The blur radius `blur` of `onBlurClick` (app.js line 99). -/
def blur : Nat := 6

/-- The spread `delta` of `onBlurClick` (app.js line 102). -/
def delta : Nat := 5

/-- The constant `alpha_left` (app.js line 103), over the reals. -/
noncomputable def alpha_left : ℝ := 1 / (2 * Real.pi * delta * delta)

/-- The loop increment `step` of `onBlurClick` (app.js line 104). -/
def blurStep : Nat := if blur < 3 then 1 else 2

/-- The values of `v` a loop `for (let v = lo; v <= hi; v += step)` visits, in
order, for a positive `step`. -/
def forRange (lo hi : Int) (step : Nat) : List Int :=
  if hi < lo then []
  else (List.range ((hi - lo).toNat / step + 1)).map fun i => lo + (i : Int) * step

/-- The offsets `(x, y)` the two nested loops of app.js lines 105-106 and
112-113 visit, in order: `y` in the outer loop, `x` in the inner one. -/
def blurOffsets : List (Int × Int) :=
  (forRange (-(blur : Int)) blur blurStep).flatMap fun y =>
    (forRange (-(blur : Int)) blur blurStep).map fun x => (x, y)

/-- The value `weight` of app.js line 107 at the offset `(x, y)`, over the
reals. -/
noncomputable def weight (x y : Int) : ℝ :=
  alpha_left * Real.exp (-((x * x + y * y : Int) : ℝ) / (2 * delta * delta))

/-- The variable `sum` after the first pair of loops (app.js lines 101-110). -/
noncomputable def blurSum : ℝ :=
  blurOffsets.foldl (fun sum p => sum + weight p.1 p.2) 0

/-- The value assigned to `ctx.globalAlpha` in the pass at the offset `(x, y)`
(app.js line 115), over the reals. -/
noncomputable def globalAlpha (x y : Int) : ℝ :=
  weight x y / blurSum * blur

/-- The offsets of the 49 passes, written out in raster order. -/
def blurOffsetsList : List (Int × Int) :=
  [(-6, -6), (-4, -6), (-2, -6), (0, -6), (2, -6), (4, -6), (6, -6),
   (-6, -4), (-4, -4), (-2, -4), (0, -4), (2, -4), (4, -4), (6, -4),
   (-6, -2), (-4, -2), (-2, -2), (0, -2), (2, -2), (4, -2), (6, -2),
   (-6, 0), (-4, 0), (-2, 0), (0, 0), (2, 0), (4, 0), (6, 0),
   (-6, 2), (-4, 2), (-2, 2), (0, 2), (2, 2), (4, 2), (6, 2),
   (-6, 4), (-4, 4), (-2, 4), (0, 4), (2, 4), (4, 4), (6, 4),
   (-6, 6), (-4, 6), (-2, 6), (0, 6), (2, 6), (4, 6), (6, 6)]

/-- The nine offsets of the grid nearest to `(0, 0)`, in raster order. -/
def blurCentre : List (Int × Int) :=
  [(-2, -2), (0, -2), (2, -2), (-2, 0), (0, 0), (2, 0), (-2, 2), (0, 2), (2, 2)]

/-- The weighted sum of the specification (section 4.2) for channel `k` of the
output pixel `(x, y)`, in exact arithmetic: over the kernel cells `(cx, cy)`,
the byte read for the cell times the weight of the cell. -/
def convSum (src : List Nat) (sw sh : Nat) (weights : List Int)
    (side halfSide x y k : Nat) : Int :=
  ((List.range side).map fun cy =>
    ((List.range side).map fun cx =>
      (src.getD (srcOff sw sh halfSide x y cx cy + k) 0 : Int) *
        weights.getD (cy * side + cx) 0).sum).sum

/-- A 1x1 bitmap holding one opaque black pixel. -/
def opaquePixel : ImageData := { width := 1, height := 1, data := [0, 0, 0, 255] }

/-- The bytes of the canvas `createNextLayer` returns when `c` is the canvas on
top of `undoStack`: `c` drawn onto a blank canvas of its size. -/
def canvasCopy (c : Canvas) : List Nat :=
  compositeData c.data (List.replicate (c.width * c.height * 4) 0)

/-- A 1x1 bitmap whose pixel `(170, 170, 255, 3)` is almost transparent. -/
def faintPixel : Canvas := { width := 1, height := 1, data := [170, 170, 255, 3] }

/-- A 2x1 bitmap of red byte 7 throughout: an opaque pixel and a fully
transparent one. -/
def redWithHole : Canvas := { width := 2, height := 1, data := [7, 0, 0, 255, 7, 0, 0, 0] }

/-- A 2x1 bitmap with a half-transparent gray pixel and an almost transparent
bluish one. -/
def faintPair : Canvas :=
  { width := 2, height := 1, data := [86, 86, 86, 128, 170, 170, 255, 3] }

/-- The buffer the grayscale filter derives from `faintPair`. -/
def faintPairGray : Canvas :=
  { width := 2, height := 1, data := [86, 86, 86, 128, 170, 170, 170, 3] }

/-! ## Auxiliary facts about the Canvas 2D model -/

theorem drawImage_error (src dst : Canvas) (h : src.width = 0 ∨ src.height = 0) :
    drawImage src dst = .error .InvalidStateError := by
  simp [drawImage, checkUsable, h, bind, Except.bind]

theorem drawImage_ok (src dst : Canvas) (hw : src.width ≠ 0) (hh : src.height ≠ 0) :
    drawImage src dst = .ok { dst with data := compositeData src.data dst.data } := by
  simp [drawImage, checkUsable, hw, hh, bind, Except.bind, pure, Except.pure]

theorem createNextLayer_error (s : App) (top : Layer)
    (htop : s.undoStack.getLast? = some top)
    (h : top.canvas.width = 0 ∨ top.canvas.height = 0) :
    createNextLayer s = .error .InvalidStateError := by
  simp [createNextLayer, htop, drawImage_error _ _ h, bind, Except.bind]

theorem createNextLayer_ok (s : App) (top : Layer)
    (htop : s.undoStack.getLast? = some top)
    (hw : top.canvas.width ≠ 0) (hh : top.canvas.height ≠ 0) :
    createNextLayer s = .ok
      { canvas :=
          { width := top.canvas.width, height := top.canvas.height,
            data := compositeData top.canvas.data
              (List.replicate (top.canvas.width * top.canvas.height * 4) 0) },
        type := top.type } := by
  simp [createNextLayer, htop, drawImage_ok _ _ hw hh, bind, Except.bind, pure,
    Except.pure, Canvas.blank]


theorem length_pos_of_getLast? {α : Type} (l : List α) (a : α)
    (h : l.getLast? = some a) : ¬ l.length < 1 := by
  cases l with
  | nil => simp at h
  | cons x xs => simp

theorem toUint8Clamp_one (v : Nat) : toUint8Clamp v 1 = min v 255 := by
  unfold toUint8Clamp
  by_cases h : 255 * 1 ≤ v
  · rw [if_pos h]; omega
  · rw [if_neg h]
    simp only [Nat.mod_one, Nat.div_one, Nat.mul_zero]
    rw [if_neg (by decide), if_pos (by decide)]
    omega

theorem toUint8Clamp_le (num den : Nat) : toUint8Clamp num den ≤ 255 := by
  unfold toUint8Clamp
  by_cases h : 255 * den ≤ num
  · rw [if_pos h]
  · rw [if_neg h]
    have hden : 0 < den := by
      rcases Nat.eq_zero_or_pos den with h0 | h0
      · subst h0; simp at h
      · exact h0
    have hq : num / den < 255 := by
      apply Nat.div_lt_of_lt_mul
      rw [Nat.mul_comm]
      omega
    simp only
    split
    · omega
    · split
      · omega
      · split <;> omega

theorem roundDiv_mul (m c : Nat) (hm : 0 < m) : roundDiv (m * c) m = c := by
  unfold roundDiv
  apply Nat.div_eq_of_lt_le
  · nlinarith
  · nlinarith

theorem storedByte_full (tieUp : Nat → Nat → Bool) (c : Nat) (hc : c ≤ 255) :
    storedByte tieUp c 255 = c := by
  unfold storedByte premultiply unpremultiply
  rw [Nat.mul_comm c 255, roundDiv_mul 255 c (by decide)]
  have h1 : c * 255 / 255 = c := Nat.mul_div_cancel c (by decide)
  have h2 : c * 255 % 255 = 0 := Nat.mul_mod_left c 255
  simp [h1, h2, hc]

theorem storeData_cons (tieUp : Nat → Nat → Bool) (r g b a : Nat) (rest : List Nat) :
    storeData tieUp (r :: g :: b :: a :: rest) =
      storedByte tieUp r a :: storedByte tieUp g a :: storedByte tieUp b a :: a ::
        storeData tieUp rest := rfl

theorem convoluteFloat32_width (pixels : ImageData) (weights : List Int) (o : Bool) :
    (convoluteFloat32 pixels weights o).width = pixels.width := rfl

theorem convoluteFloat32_height (pixels : ImageData) (weights : List Int) (o : Bool) :
    (convoluteFloat32 pixels weights o).height = pixels.height := rfl

theorem storeData_full {α : Type} (tieUp : Nat → Nat → Bool) (l : List α)
    (f g h : α → Nat) (hf : ∀ a, f a ≤ 255) (hg : ∀ a, g a ≤ 255) (hh : ∀ a, h a ≤ 255) :
    storeData tieUp (l.flatMap fun a => [f a, g a, h a, 255]) =
      l.flatMap fun a => [f a, g a, h a, 255] := by
  induction l with
  | nil => rfl
  | cons a t ih =>
    rw [List.flatMap_cons]
    show storeData tieUp
      (f a :: g a :: h a :: 255 :: (t.flatMap fun a => [f a, g a, h a, 255])) = _
    rw [storeData_cons, storedByte_full tieUp _ (hf a), storedByte_full tieUp _ (hg a),
      storedByte_full tieUp _ (hh a), ih]
    rfl

theorem storeData_edgesLoop (tieUp : Nat → Nat → Bool) (vertical horizontal : FloatImage)
    (n : Nat) :
    storeData tieUp (edgesLoop vertical horizontal n) = edgesLoop vertical horizontal n := by
  unfold edgesLoop
  exact storeData_full tieUp (List.range n) _ _ _ (fun _ => toUint8Clamp_le _ _)
    (fun _ => toUint8Clamp_le _ _) (fun _ => toUint8Clamp_le _ _)

theorem grayscaleCanvas_ok (tieUp : Nat → Nat → Bool) (c : Canvas) (hw : c.width ≠ 0)
    (hh : c.height ≠ 0) :
    grayscaleCanvas tieUp c =
      .ok { c with data := storeData tieUp (grayscaleLoop c.data) } := by
  simp [grayscaleCanvas, getImageData, putImageData, hw, hh, bind, Except.bind, pure,
    Except.pure]

theorem flipCanvas_ok (flipType : Nat) (c : Canvas) (hw : c.width ≠ 0)
    (hh : c.height ≠ 0) :
    flipCanvas flipType c = .ok { c with
      data := compositeData (mirrorData flipType c.width c.height c.data) c.data } := by
  simp [flipCanvas, checkUsable, hw, hh, bind, Except.bind, pure, Except.pure]

theorem edgesCanvas_ok (tieUp : Nat → Nat → Bool) (c : Canvas) (hw : c.width ≠ 0)
    (hh : c.height ≠ 0) :
    edgesCanvas tieUp c = .ok { c with
      data := edgesLoop
        (convoluteFloat32 { width := c.width, height := c.height, data := c.data }
          sobelVertical false)
        (convoluteFloat32 { width := c.width, height := c.height, data := c.data }
          sobelHorizontal false)
        (c.width * c.height) } := by
  simp [edgesCanvas, getImageData, newImageData, putImageData, convoluteFloat32_width,
    convoluteFloat32_height, storeData_edgesLoop, hw, hh, bind, Except.bind, pure,
    Except.pure]

theorem applyFilter_empty (tieUp : Nat → Nat → Bool) (blurPasses : Canvas → Canvas) (f : Filter) (s : App)
    (h : s.undoStack = []) : applyFilter tieUp blurPasses f s = .ok s := by
  cases f <;>
    simp [applyFilter, onGrayscaleClick, onBlurClick, onFlipClick, onEdgesClick, h]

theorem applyFilter_error (tieUp : Nat → Nat → Bool) (blurPasses : Canvas → Canvas) (f : Filter) (s : App)
    (top : Layer) (htop : s.undoStack.getLast? = some top)
    (h : top.canvas.width = 0 ∨ top.canvas.height = 0) :
    applyFilter tieUp blurPasses f s = .error .InvalidStateError := by
  have hlen := length_pos_of_getLast? _ _ htop
  cases f <;>
    simp [applyFilter, onGrayscaleClick, onBlurClick, onFlipClick, onEdgesClick, hlen,
      createNextLayer_error s top htop h, bind, Except.bind]

theorem applyFilter_ok (tieUp : Nat → Nat → Bool) (blurPasses : Canvas → Canvas) (f : Filter) (s : App)
    (top : Layer) (htop : s.undoStack.getLast? = some top)
    (hw : top.canvas.width ≠ 0) (hh : top.canvas.height ≠ 0) :
    ∃ c : Canvas, applyFilter tieUp blurPasses f s =
      .ok { undoStack := s.undoStack ++ [{ canvas := c, type := top.type }],
            redoStack := s.redoStack } := by
  have hlen := length_pos_of_getLast? _ _ htop
  cases f <;>
    simp [applyFilter, onGrayscaleClick, onBlurClick, onFlipClick, onEdgesClick, hlen,
      createNextLayer_ok s top htop hw hh, grayscaleCanvas_ok, flipCanvas_ok,
      edgesCanvas_ok, hw, hh, bind, Except.bind, pure, Except.pure]


/-! ## The history -/

theorem step_filter_cases (tieUp : Nat → Nat → Bool) (blurPasses : Canvas → Canvas) (f : Filter) (s : App) :
    step tieUp blurPasses s (.filter f) = s ∨
      ∃ l : Layer, step tieUp blurPasses s (.filter f) =
        { undoStack := s.undoStack ++ [l], redoStack := s.redoStack } := by
  cases htop : s.undoStack.getLast? with
  | none =>
    left
    have h : s.undoStack = [] := List.getLast?_eq_none_iff.mp htop
    simp [step, applyFilter_empty tieUp blurPasses f s h]
  | some top =>
    by_cases hz : top.canvas.width = 0 ∨ top.canvas.height = 0
    · left
      simp [step, applyFilter_error tieUp blurPasses f s top htop hz]
    · right
      have hw : top.canvas.width ≠ 0 := fun h => hz (Or.inl h)
      have hh : top.canvas.height ≠ 0 := fun h => hz (Or.inr h)
      obtain ⟨c, hc⟩ := applyFilter_ok tieUp blurPasses f s top htop hw hh
      exact ⟨{ canvas := c, type := top.type }, by simp [step, hc]⟩

theorem onUndoClick_pop (s : App) (h : 1 < s.undoStack.length) :
    ∃ top : Layer, s.undoStack.getLast? = some top ∧
      onUndoClick s =
        { undoStack := s.undoStack.dropLast, redoStack := s.redoStack ++ [top] } := by
  cases htop : s.undoStack.getLast? with
  | none =>
    have h0 : s.undoStack = [] := List.getLast?_eq_none_iff.mp htop
    simp [h0] at h
  | some top =>
    exact ⟨top, rfl, by simp [onUndoClick, h, htop]⟩

theorem head?_dropLast {α : Type} (l : List α) (h : 1 < l.length) :
    l.dropLast.head? = l.head? := by
  match l, h with
  | a :: b :: t, _ => simp [List.dropLast]

theorem step_head? (tieUp : Nat → Nat → Bool) (blurPasses : Canvas → Canvas) (s : App) (op : Op) (bottom : Layer)
    (h : s.undoStack.head? = some bottom) :
    (step tieUp blurPasses s op).undoStack.head? = some bottom := by
  cases op with
  | filter f =>
    rcases step_filter_cases tieUp blurPasses f s with h1 | ⟨l, h1⟩
    · rw [h1]; exact h
    · rw [h1]
      cases hs : s.undoStack with
      | nil => simp [hs] at h
      | cons a t => simpa [hs] using h
  | undo =>
    by_cases hlen : 1 < s.undoStack.length
    · obtain ⟨top, _, hu⟩ := onUndoClick_pop s hlen
      simp only [step, hu]
      rw [head?_dropLast _ hlen]
      exact h
    · simpa [step, onUndoClick, hlen] using h
  | redo =>
    simp only [step, onRedoClick]
    split
    · split
      · cases hs : s.undoStack with
        | nil => simp [hs] at h
        | cons a t => simpa [hs] using h
      · exact h
    · exact h

theorem run_head? (tieUp : Nat → Nat → Bool) (blurPasses : Canvas → Canvas) (ops : List Op) (s : App)
    (bottom : Layer) (h : s.undoStack.head? = some bottom) :
    (run tieUp blurPasses s ops).undoStack.head? = some bottom := by
  induction ops generalizing s with
  | nil => exact h
  | cons op rest ih =>
    exact ih (step tieUp blurPasses s op) (step_head? tieUp blurPasses s op bottom h)

/-- C1. In every state reached from an upload of `layer` by any finite
sequence of filter, undo and redo clicks, `undoStack` has at least one element
and its bottommost element is still the uploaded layer: undo never removes it. -/
theorem undoStack_nonempty_of_reachable (tieUp : Nat → Nat → Bool) (blurPasses : Canvas → Canvas) (layer : Layer)
    (s0 : App) (ops : List Op) :
    1 ≤ (run tieUp blurPasses (onSelectImage layer s0) ops).undoStack.length ∧
      (run tieUp blurPasses (onSelectImage layer s0) ops).undoStack.head? = some layer := by
  have h := run_head? tieUp blurPasses ops (onSelectImage layer s0) layer rfl
  refine ⟨?_, h⟩
  cases hs : (run tieUp blurPasses (onSelectImage layer s0) ops).undoStack with
  | nil => simp [hs] at h
  | cons a t => simp

/-- C2. When `undoStack` has more than one layer, redo after undo gives back the
state exactly: both stacks, layer for layer (canvas bytes and `type`). -/
theorem redo_undo_eq (s : App) (h : 1 < s.undoStack.length) :
    onRedoClick (onUndoClick s) = s := by
  obtain ⟨top, htop, hu⟩ := onUndoClick_pop s h
  rw [hu]
  have hne : s.undoStack ≠ [] := by
    intro h0; simp [h0] at h
  have hlast : s.undoStack.dropLast ++ [top] = s.undoStack := by
    have h1 := List.dropLast_append_getLast? top (by simpa using htop)
    exact h1
  cases s with
  | mk u r =>
    simp only at hlast
    simp [onRedoClick, hlast]

/-- Witness of C2 on the history `[sampleLayer, sampleGrayLayer]`. -/
theorem redo_undo_eq_witness :
    1 < ([sampleLayer, sampleGrayLayer] : List Layer).length ∧
      onRedoClick (onUndoClick
        { undoStack := [sampleLayer, sampleGrayLayer], redoStack := [] }) =
        { undoStack := [sampleLayer, sampleGrayLayer], redoStack := [] } :=
  ⟨by decide, redo_undo_eq _ (by decide)⟩


/-- C9, as stated, fails on a loaded history whose top canvas has a zero
dimension: `createNextLayer` raises in `drawImage` before anything is pushed,
so `undoStack` does not grow. -/
theorem filter_push_counterexample :
    zeroSizedApp.undoStack.length = 1 ∧
      applyFilter halfUp id .grayscale zeroSizedApp = .error .InvalidStateError ∧
      (step halfUp id zeroSizedApp (.filter .grayscale)).undoStack.length ≠
        zeroSizedApp.undoStack.length + 1 := by
  refine ⟨rfl, rfl, ?_⟩
  decide

/-- C9, amended. For every filter and every loaded history whose top canvas has
a non-zero width and height, the handler returns normally, `redoStack` is
unchanged, every earlier entry of `undoStack` stays in place and exactly one
new layer is pushed on top. -/
theorem filter_frame (tieUp : Nat → Nat → Bool) (blurPasses : Canvas → Canvas) (f : Filter) (s : App) (top : Layer)
    (htop : s.undoStack.getLast? = some top)
    (hw : top.canvas.width ≠ 0) (hh : top.canvas.height ≠ 0) :
    ∃ l : Layer,
      applyFilter tieUp blurPasses f s =
        .ok { undoStack := s.undoStack ++ [l], redoStack := s.redoStack } ∧
      (step tieUp blurPasses s (.filter f)).redoStack = s.redoStack ∧
      (step tieUp blurPasses s (.filter f)).undoStack = s.undoStack ++ [l] := by
  obtain ⟨c, hc⟩ := applyFilter_ok tieUp blurPasses f s top htop hw hh
  exact ⟨{ canvas := c, type := top.type }, hc, by simp [step, hc], by simp [step, hc]⟩

/-- Witness of the amended C9: the grayscale button on the uploaded 2x2 sample. -/
theorem filter_frame_witness :
    ∃ l : Layer,
      applyFilter halfUp id .grayscale (onSelectImage sampleLayer App.empty) =
        .ok { undoStack := (onSelectImage sampleLayer App.empty).undoStack ++ [l],
              redoStack := (onSelectImage sampleLayer App.empty).redoStack } ∧
      (step halfUp id (onSelectImage sampleLayer App.empty) (.filter .grayscale)).redoStack =
        (onSelectImage sampleLayer App.empty).redoStack ∧
      (step halfUp id (onSelectImage sampleLayer App.empty) (.filter .grayscale)).undoStack =
        (onSelectImage sampleLayer App.empty).undoStack ++ [l] :=
  filter_frame halfUp id .grayscale (onSelectImage sampleLayer App.empty) sampleLayer rfl
    (by decide) (by decide)

/-- C10. Every no-op path returns the state unchanged and raises nothing: undo
with at most one layer in `undoStack`, redo with an empty `redoStack`, and every
filter on a history that was never loaded.  On the sample: upload, grayscale,
undo reaches `undoStack = [L0]`, `redoStack = [L1]`, and a second undo leaves
exactly that state. -/
theorem noop_paths :
    (∀ s : App, s.undoStack.length ≤ 1 → onUndoClick s = s) ∧
    (∀ s : App, s.redoStack = [] → onRedoClick s = s) ∧
    (∀ (tieUp : Nat → Nat → Bool) (blurPasses : Canvas → Canvas) (f : Filter) (s : App),
      s.undoStack = [] → applyFilter tieUp blurPasses f s = .ok s) ∧
    run halfUp id (onSelectImage sampleLayer App.empty) [.filter .grayscale, .undo] =
      { undoStack := [sampleLayer], redoStack := [sampleGrayLayer] } ∧
    run halfUp id (onSelectImage sampleLayer App.empty) [.filter .grayscale, .undo, .undo] =
      { undoStack := [sampleLayer], redoStack := [sampleGrayLayer] } := by
  refine ⟨?_, ?_, ?_, rfl, rfl⟩
  · intro s h
    have h1 : ¬ s.undoStack.length > 1 := by omega
    simp [onUndoClick, h1]
  · intro s h
    simp [onRedoClick, h]
  · intro tieUp blurPasses f s h
    exact applyFilter_empty tieUp blurPasses f s h

/-- Witness of C10: the second undo of the scenario, through the general part. -/
theorem noop_paths_witness :
    onUndoClick { undoStack := [sampleLayer], redoStack := [sampleGrayLayer] } =
      { undoStack := [sampleLayer], redoStack := [sampleGrayLayer] } :=
  noop_paths.1 _ (by decide)


/-! ## Grayscale -/

theorem sourceOver_blank (r g b a : Nat) :
    sourceOver r g b a 0 0 0 0 = if a = 0 then [0, 0, 0, 0] else [r, g, b, a] := by
  by_cases ha : a = 0
  · subst ha
    simp [sourceOver, roundDiv]
  · have hpos : 0 < 255 * a := by omega
    have e : ∀ c : Nat, 255 * c * a = 255 * a * c := fun c => by ring
    have h1 : roundDiv (255 * a) 255 = a := roundDiv_mul 255 a (by decide)
    simp [sourceOver, ha, e, roundDiv_mul _ _ hpos, h1]

theorem compositeData_nil (s : List Nat) : compositeData s [] = [] := by
  unfold compositeData
  split <;> simp_all

theorem compositeData_zeros (n : Nat) :
    compositeData (List.replicate (4 * n) 0) (List.replicate (4 * n) 0) =
      List.replicate (4 * n) 0 := by
  induction n with
  | zero => simp [compositeData_nil]
  | succ n ih =>
    have e : List.replicate (4 * (n + 1)) 0 =
        (0 : Nat) :: 0 :: 0 :: 0 :: List.replicate (4 * n) 0 := by
      rw [show 4 * (n + 1) = 4 * n + 1 + 1 + 1 + 1 by ring]
      simp [List.replicate_succ]
    rw [e, compositeData, sourceOver_blank, ih]
    simp

theorem grayscaleLoop_zeros (n : Nat) :
    grayscaleLoop (List.replicate (4 * n) 0) = List.replicate (4 * n) 0 := by
  induction n with
  | zero => simp [grayscaleLoop]
  | succ n ih =>
    have e : List.replicate (4 * (n + 1)) 0 =
        (0 : Nat) :: 0 :: 0 :: 0 :: List.replicate (4 * n) 0 := by
      rw [show 4 * (n + 1) = 4 * n + 1 + 1 + 1 + 1 by ring]
      simp [List.replicate_succ]
    rw [e, grayscaleLoop, ih]
    simp [toUint8Clamp_one]


theorem replicate_four_succ (n : Nat) :
    List.replicate (4 * (n + 1)) 0 = (0 : Nat) :: 0 :: 0 :: 0 :: List.replicate (4 * n) 0 := by
  rw [show 4 * (n + 1) = 4 * n + 1 + 1 + 1 + 1 by ring]
  simp [List.replicate_succ]

theorem compositeData_short (s d : List Nat) (h : s.length < 4) :
    compositeData s d = d := by
  unfold compositeData
  split
  · simp only [List.length_cons] at h
    omega
  · rfl

theorem compositeData_cons (sr sg sb sa dr dg db da : Nat) (s d : List Nat) :
    compositeData (sr :: sg :: sb :: sa :: s) (dr :: dg :: db :: da :: d) =
      sourceOver sr sg sb sa dr dg db da ++ compositeData s d := rfl

theorem grayscaleLoop_cons (r g b a : Nat) (rest : List Nat) :
    grayscaleLoop (r :: g :: b :: a :: rest) =
      toUint8Clamp ((r + g + b) / 3) 1 :: toUint8Clamp ((r + g + b) / 3) 1 ::
        toUint8Clamp ((r + g + b) / 3) 1 :: a :: grayscaleLoop rest := rfl

theorem filterCanvas_error (tieUp : Nat → Nat → Bool) (blurPasses : Canvas → Canvas) (f : Filter) (c : Canvas)
    (h : c.width = 0 ∨ c.height = 0) :
    filterCanvas tieUp blurPasses f c = .error .InvalidStateError := by
  have he := applyFilter_error tieUp blurPasses f
    { undoStack := [{ canvas := c, type := "" }], redoStack := [] }
    { canvas := c, type := "" } rfl h
  simp [filterCanvas, he, bind, Except.bind]

theorem grayscaleLoop_length (n : Nat) (data : List Nat) (h : data.length = 4 * n) :
    (grayscaleLoop data).length = data.length := by
  induction n generalizing data with
  | zero =>
    have h0 : data = [] := List.length_eq_zero.mp (by simpa using h)
    subst h0; rfl
  | succ n ih =>
    rcases data with _ | ⟨r, _ | ⟨g, _ | ⟨b, _ | ⟨a, rest⟩⟩⟩⟩
    · simp at h
    · simp at h; omega
    · simp at h; omega
    · simp at h; omega
    · have hr : rest.length = 4 * n := by simp at h; omega
      rw [grayscaleLoop_cons]
      simp [ih rest hr]

theorem grayscaleLoop_getD (p : Nat) (data : List Nat) (hrange : ∀ v ∈ data, v ≤ 255)
    (hp : 4 * p + 3 < data.length) :
    (grayscaleLoop data).getD (4 * p) 0 =
        (data.getD (4 * p) 0 + data.getD (4 * p + 1) 0 + data.getD (4 * p + 2) 0) / 3 ∧
      (grayscaleLoop data).getD (4 * p + 1) 0 =
        (data.getD (4 * p) 0 + data.getD (4 * p + 1) 0 + data.getD (4 * p + 2) 0) / 3 ∧
      (grayscaleLoop data).getD (4 * p + 2) 0 =
        (data.getD (4 * p) 0 + data.getD (4 * p + 1) 0 + data.getD (4 * p + 2) 0) / 3 ∧
      (grayscaleLoop data).getD (4 * p + 3) 0 = data.getD (4 * p + 3) 0 := by
  induction p generalizing data with
  | zero =>
    rcases data with _ | ⟨r, _ | ⟨g, _ | ⟨b, _ | ⟨a, rest⟩⟩⟩⟩
    · exfalso; simp only [List.length_cons, List.length_nil] at hp; omega
    · exfalso; simp only [List.length_cons, List.length_nil] at hp; omega
    · exfalso; simp only [List.length_cons, List.length_nil] at hp; omega
    · exfalso; simp only [List.length_cons, List.length_nil] at hp; omega
    · have hr : r ≤ 255 := hrange r (by simp)
      have hg : g ≤ 255 := hrange g (by simp)
      have hb : b ≤ 255 := hrange b (by simp)
      have hl : min ((r + g + b) / 3) 255 = (r + g + b) / 3 := by omega
      rw [grayscaleLoop_cons, toUint8Clamp_one, hl]
      exact ⟨rfl, rfl, rfl, rfl⟩
  | succ p ih =>
    rcases data with _ | ⟨r, _ | ⟨g, _ | ⟨b, _ | ⟨a, rest⟩⟩⟩⟩
    · exfalso; simp only [List.length_cons, List.length_nil] at hp; omega
    · exfalso; simp only [List.length_cons, List.length_nil] at hp; omega
    · exfalso; simp only [List.length_cons, List.length_nil] at hp; omega
    · exfalso; simp only [List.length_cons, List.length_nil] at hp; omega
    · have hrest : ∀ v ∈ rest, v ≤ 255 := fun v hv => hrange v (by simp [hv])
      have hp2 : 4 * p + 3 < rest.length := by
        simp only [List.length_cons] at hp; omega
      have e0 : 4 * (p + 1) = 4 * p + 1 + 1 + 1 + 1 := by ring
      have e1 : 4 * (p + 1) + 1 = 4 * p + 1 + 1 + 1 + 1 + 1 := by ring
      have e2 : 4 * (p + 1) + 2 = 4 * p + 2 + 1 + 1 + 1 + 1 := by ring
      have e3 : 4 * (p + 1) + 3 = 4 * p + 3 + 1 + 1 + 1 + 1 := by ring
      rw [grayscaleLoop_cons, e1, e2, e3, e0]
      simp only [List.getD_cons_succ]
      exact ih rest hrest hp2

/-! ## Raster-order arrays -/

theorem length_flatMap_range {α : Type} (f : Nat → List α) (m : Nat)
    (hf : ∀ i, (f i).length = m) (n : Nat) :
    ((List.range n).flatMap f).length = n * m := by
  induction n with
  | zero => simp
  | succ n ih =>
    rw [List.range_succ, List.flatMap_append, List.length_append, ih,
      List.flatMap_singleton, hf]
    ring

theorem getD_flatMap_range {α : Type} (f : Nat → List α) (m : Nat)
    (hf : ∀ i, (f i).length = m) (d : α) (n p k : Nat) (hp : p < n) (hk : k < m) :
    ((List.range n).flatMap f).getD (p * m + k) d = (f p).getD k d := by
  induction n with
  | zero => omega
  | succ n ih =>
    rw [List.range_succ, List.flatMap_append, List.flatMap_singleton]
    have hlen := length_flatMap_range f m hf n
    by_cases hpn : p < n
    · have hlt : p * m + k < ((List.range n).flatMap f).length := by
        rw [hlen]
        calc p * m + k < p * m + m := by omega
          _ = (p + 1) * m := by ring
          _ ≤ n * m := Nat.mul_le_mul_right m hpn
      rw [List.getD_append _ _ _ _ hlt]
      exact ih hpn
    · have hpe : p = n := by omega
      subst hpe
      have hge : ((List.range p).flatMap f).length ≤ p * m + k := by
        rw [hlen]; omega
      rw [List.getD_append_right _ _ _ _ hge, hlen]
      congr 1
      omega


/-! ## Edge detection -/

theorem edgesLoop_length (vertical horizontal : FloatImage) (n : Nat) :
    (edgesLoop vertical horizontal n).length = n * 4 := by
  unfold edgesLoop
  apply length_flatMap_range
  intro i
  rfl

theorem edgesLoop_getD (vertical horizontal : FloatImage) (n p k : Nat) (hp : p < n)
    (hk : k < 4) :
    (edgesLoop vertical horizontal n).getD (p * 4 + k) 0 =
      [toUint8Clamp (vertical.data.getD (4 * p) 0).natAbs 1,
       toUint8Clamp (horizontal.data.getD (4 * p) 0).natAbs 1,
       toUint8Clamp ((vertical.data.getD (4 * p) 0).natAbs +
         (horizontal.data.getD (4 * p) 0).natAbs) 4,
       255].getD k 0 := by
  unfold edgesLoop
  rw [getD_flatMap_range _ 4 (by intro i; rfl) 0 n p k hp hk]

theorem convoluteFloat32_getD (pixels : ImageData) (weights : List Int)
    (opaqueOutput : Bool) (x y k : Nat) (hx : x < pixels.width) (hy : y < pixels.height)
    (hk : k < 4) :
    (convoluteFloat32 pixels weights opaqueOutput).data.getD
        ((y * pixels.width + x) * 4 + k) 0 =
      (convPixel pixels.data pixels.width pixels.height weights
        (roundSqrt weights.length) (roundSqrt weights.length / 2)
        (if opaqueOutput then 1 else 0) x y).getD k 0 := by
  have e : (y * pixels.width + x) * 4 + k = y * (pixels.width * 4) + (x * 4 + k) := by ring
  have hin : x * 4 + k < pixels.width * 4 := by omega
  unfold convoluteFloat32
  simp only
  rw [e, getD_flatMap_range _ (pixels.width * 4)
    (by intro i; apply length_flatMap_range; intro j; rfl) 0 pixels.height y _ hy hin,
    getD_flatMap_range _ 4 (by intro i; rfl) 0 pixels.width x k hx hk]

theorem filterCanvas_edges (tieUp : Nat → Nat → Bool) (blurPasses : Canvas → Canvas) (c : Canvas)
    (hw : c.width ≠ 0) (hh : c.height ≠ 0) :
    filterCanvas tieUp blurPasses .edges c = .ok
      { width := c.width, height := c.height,
        data := edgesLoop
          (convoluteFloat32
            { width := c.width, height := c.height,
              data := compositeData c.data (List.replicate (c.width * c.height * 4) 0) }
            sobelVertical false)
          (convoluteFloat32
            { width := c.width, height := c.height,
              data := compositeData c.data (List.replicate (c.width * c.height * 4) 0) }
            sobelHorizontal false)
          (c.width * c.height) } := by
  have hc := createNextLayer_ok
    { undoStack := [{ canvas := c, type := "" }], redoStack := [] }
    { canvas := c, type := "" } rfl hw hh
  simp only at hc
  simp [filterCanvas, applyFilter, onEdgesClick, hc, edgesCanvas_ok, hw, hh, bind,
    Except.bind, pure, Except.pure]

/-- C7. Whatever the input buffer, every pixel of a buffer the edge-detection
filter produces has alpha exactly 255; the output has the input's dimensions
and four bytes per pixel, and the filter does produce a buffer from every
input of non-zero width and height. -/
theorem edges_alpha (tieUp : Nat → Nat → Bool) (blurPasses : Canvas → Canvas) (b : Canvas) :
    (b.width ≠ 0 → b.height ≠ 0 →
      ∃ out, filterCanvas tieUp blurPasses .edges b = .ok out) ∧
    ∀ out, filterCanvas tieUp blurPasses .edges b = .ok out →
      out.width = b.width ∧ out.height = b.height ∧
      out.data.length = b.width * b.height * 4 ∧
      ∀ p, p < b.width * b.height → out.data.getD (p * 4 + 3) 0 = 255 := by
  constructor
  · intro hw hh
    exact ⟨_, filterCanvas_edges tieUp blurPasses b hw hh⟩
  · intro out hout
    by_cases hz : b.width = 0 ∨ b.height = 0
    · rw [filterCanvas_error tieUp blurPasses _ b hz] at hout
      cases hout
    · have hw : b.width ≠ 0 := fun h => hz (Or.inl h)
      have hh : b.height ≠ 0 := fun h => hz (Or.inr h)
      rw [filterCanvas_edges tieUp blurPasses b hw hh] at hout
      cases hout
      refine ⟨rfl, rfl, edgesLoop_length _ _ _, ?_⟩
      intro p hp
      rw [edgesLoop_getD _ _ _ p 3 hp (by decide)]
      rfl

/-- Witness of C7 on the 1x2 black-over-white buffer, whose two output pixels
are `(255, 0, 255, 255)`. -/
theorem edges_alpha_witness :
    (∃ out, filterCanvas halfUp id .edges blackOverWhite = .ok out) ∧
      ∀ p, p < blackOverWhite.width * blackOverWhite.height →
        ([255, 0, 255, 255, 255, 0, 255, 255] : List Nat).getD (p * 4 + 3) 0 = 255 :=
  ⟨(edges_alpha halfUp id blackOverWhite).1 (by decide) (by decide),
   ((edges_alpha halfUp id blackOverWhite).2
      { width := 1, height := 2, data := [255, 0, 255, 255, 255, 0, 255, 255] } rfl).2.2.2⟩


/-! ## Flip -/

/-- C3 evaluated on buffers with a transparent pixel.  The mirrored picture is
drawn over the unflipped copy, so the opaque pixel shows through the
transparent one: one horizontal flip of `halfTransparent` gives the opaque
pixel twice, a second flip gives the same buffer again, and that buffer is not
`halfTransparent`; likewise for the vertical flip of `halfTransparentColumn`. -/
theorem flip_twice_halfTransparent :
    filterCanvas halfUp id .flipHorizontal halfTransparent = .ok bothOpaqueRow ∧
      filterCanvas halfUp id .flipHorizontal bothOpaqueRow = .ok bothOpaqueRow ∧
      bothOpaqueRow ≠ halfTransparent ∧
      filterCanvas halfUp id .flipVertical halfTransparentColumn = .ok bothOpaqueColumn ∧
      filterCanvas halfUp id .flipVertical bothOpaqueColumn = .ok bothOpaqueColumn ∧
      bothOpaqueColumn ≠ halfTransparentColumn := by
  refine ⟨rfl, rfl, ?_, rfl, rfl, ?_⟩ <;> decide

/-- C6 evaluated on `halfTransparent` (width 2, height 1).  For the source
pixel `(x, y) = (1, 0)`, which is `(0, 0, 0, 0)`, the output pixel at
`(width - 1 - x, y) = (0, 0)` is `(10, 20, 30, 255)`; for the vertical flip of
`halfTransparentColumn` the output pixel at `(0, height - 1 - 1)` is
`(10, 20, 30, 255)` while the source pixel `(0, 1)` is `(0, 0, 0, 0)`. -/
theorem flip_pixel_halfTransparent :
    filterCanvas halfUp id .flipHorizontal halfTransparent = .ok bothOpaqueRow ∧
      pixelAt bothOpaqueRow.data bothOpaqueRow.width (halfTransparent.width - 1 - 1) 0 =
        [10, 20, 30, 255] ∧
      pixelAt halfTransparent.data halfTransparent.width 1 0 = [0, 0, 0, 0] ∧
      filterCanvas halfUp id .flipVertical halfTransparentColumn = .ok bothOpaqueColumn ∧
      pixelAt bothOpaqueColumn.data bothOpaqueColumn.width 0
          (halfTransparentColumn.height - 1 - 1) = [10, 20, 30, 255] ∧
      pixelAt halfTransparentColumn.data halfTransparentColumn.width 0 1 = [0, 0, 0, 0] := by
  refine ⟨rfl, rfl, rfl, rfl, rfl, rfl⟩


/-! ## Flip of a fully opaque buffer

The following facts locate the defect the two evaluations above exhibit: on a
buffer whose pixels are all opaque the mirrored picture covers the unflipped
copy entirely, and the handler does flip. -/

theorem opaque_sourceOver (sr sg sb dr dg db da : Nat) :
    sourceOver sr sg sb 255 dr dg db da = [sr, sg, sb, 255] := by
  have e : ∀ c : Nat, 255 * c * 255 = 65025 * c := fun c => by ring
  have h1 : roundDiv 65025 255 = 255 := by decide
  simp [sourceOver, e, roundDiv_mul 65025 _ (by decide), h1]

theorem opaque_compositeData (n : Nat) (src d : List Nat) (hs : src.length = 4 * n)
    (hd : d.length = 4 * n) (ho : ∀ p, p < n → src.getD (4 * p + 3) 0 = 255) :
    compositeData src d = src := by
  induction n generalizing src d with
  | zero =>
    have h0 : d = [] := List.length_eq_zero.mp (by simpa using hd)
    have h1 : src = [] := List.length_eq_zero.mp (by simpa using hs)
    subst h0 h1; rfl
  | succ n ih =>
    rcases src with _ | ⟨sr, _ | ⟨sg, _ | ⟨sb, _ | ⟨sa, s⟩⟩⟩⟩
    · simp at hs
    · simp at hs; omega
    · simp at hs; omega
    · simp at hs; omega
    · rcases d with _ | ⟨dr, _ | ⟨dg, _ | ⟨db, _ | ⟨da, d⟩⟩⟩⟩
      · simp at hd
      · simp at hd; omega
      · simp at hd; omega
      · simp at hd; omega
      · have ha : sa = 255 := ho 0 (by omega)
        have hs2 : s.length = 4 * n := by simp at hs; omega
        have hd2 : d.length = 4 * n := by simp at hd; omega
        have ho2 : ∀ p, p < n → s.getD (4 * p + 3) 0 = 255 := by
          intro p hp
          have h := ho (p + 1) (by omega)
          rw [show 4 * (p + 1) + 3 = 4 * p + 3 + 1 + 1 + 1 + 1 by ring] at h
          simpa only [List.getD_cons_succ] using h
        rw [compositeData_cons, ha, opaque_sourceOver, ih s d hs2 hd2 ho2]
        rfl

theorem pixelAt_getD (data : List Nat) (w x y k : Nat) (hk : k < 4) :
    (pixelAt data w x y).getD k 0 = data.getD ((y * w + x) * 4 + k) 0 := by
  unfold pixelAt
  rcases k with _ | _ | _ | _ | k
  · rfl
  · rfl
  · rfl
  · rfl
  · omega

theorem mirrorData_length (flipType w h : Nat) (data : List Nat) :
    (mirrorData flipType w h data).length = h * (w * 4) := by
  unfold mirrorData
  apply length_flatMap_range
  intro y
  apply length_flatMap_range
  intro x
  rfl

theorem mirrorData_getD (flipType w h : Nat) (data : List Nat) (x y k : Nat)
    (hx : x < w) (hy : y < h) (hk : k < 4) :
    (mirrorData flipType w h data).getD ((y * w + x) * 4 + k) 0 =
      data.getD
        (((if flipType = FLIP_VERTICAL then h - 1 - y else y) * w +
          (if flipType = FLIP_HORIZONTAL then w - 1 - x else x)) * 4 + k) 0 := by
  have e : (y * w + x) * 4 + k = y * (w * 4) + (x * 4 + k) := by ring
  have hin : x * 4 + k < w * 4 := by omega
  unfold mirrorData
  rw [e, getD_flatMap_range _ (w * 4)
    (by intro i; apply length_flatMap_range; intro j; rfl) 0 h y _ hy hin,
    getD_flatMap_range _ 4 (by intro i; rfl) 0 w x k hx hk, pixelAt_getD _ _ _ _ _ hk]

theorem index_lt (w h x y k : Nat) (hx : x < w) (hy : y < h) (hk : k < 4) :
    (y * w + x) * 4 + k < w * h * 4 := by
  have h1 : y * w + x < w * h := by
    calc y * w + x < y * w + w := by omega
      _ = w * (y + 1) := by ring
      _ ≤ w * h := Nat.mul_le_mul_left _ hy
  omega

theorem mirror_lt (t c n v : Nat) (hv : v < n) :
    (if t = c then n - 1 - v else v) < n := by
  split <;> omega

theorem mirror_mirror (t c n v : Nat) (hv : v < n) :
    (if t = c then n - 1 - (if t = c then n - 1 - v else v)
      else (if t = c then n - 1 - v else v)) = v := by
  by_cases h : t = c
  · simp only [h, if_true]; omega
  · simp only [h, if_false]

theorem opaque_mirrorData (flipType w h : Nat) (data : List Nat)
    (ho : ∀ p, p < w * h → data.getD (4 * p + 3) 0 = 255) :
    ∀ p, p < w * h → (mirrorData flipType w h data).getD (4 * p + 3) 0 = 255 := by
  intro p hp
  have hw : 0 < w := by
    rcases Nat.eq_zero_or_pos w with h0 | h0
    · subst h0; simp at hp
    · exact h0
  have hx : p % w < w := Nat.mod_lt _ hw
  have hy : p / w < h := Nat.div_lt_of_lt_mul hp
  have hpe : 4 * p + 3 = (p / w * w + p % w) * 4 + 3 := by
    have := Nat.div_add_mod p w
    have e : p / w * w = w * (p / w) := Nat.mul_comm _ _
    omega
  rw [hpe, mirrorData_getD flipType w h data _ _ 3 hx hy (by decide)]
  have hx2 : (if flipType = FLIP_HORIZONTAL then w - 1 - p % w else p % w) < w :=
    mirror_lt _ _ _ _ hx
  have hy2 : (if flipType = FLIP_VERTICAL then h - 1 - p / w else p / w) < h :=
    mirror_lt _ _ _ _ hy
  have hlt := index_lt w h _ _ 0 hx2 hy2 (by decide)
  have h := ho ((if flipType = FLIP_VERTICAL then h - 1 - p / w else p / w) * w +
    (if flipType = FLIP_HORIZONTAL then w - 1 - p % w else p % w)) (by omega)
  rw [← h]
  congr 1
  ring

theorem mirrorData_involutive (flipType w h : Nat) (data : List Nat)
    (hlen : data.length = w * h * 4) :
    mirrorData flipType w h (mirrorData flipType w h data) = data := by
  apply List.ext_getElem
  · rw [mirrorData_length, hlen]; ring
  · intro i h1 h2
    rw [← List.getD_eq_getElem _ 0 h1, ← List.getD_eq_getElem _ 0 h2]
    have hi : i < w * h * 4 := by rw [← hlen]; exact h2
    have hw : 0 < w := by
      rcases Nat.eq_zero_or_pos w with h0 | h0
      · subst h0; simp at hi
      · exact h0
    have hp : i / 4 < w * h := by omega
    have hx : i / 4 % w < w := Nat.mod_lt _ hw
    have hy : i / 4 / w < h := Nat.div_lt_of_lt_mul hp
    have hk : i % 4 < 4 := by omega
    have hie : i = (i / 4 / w * w + i / 4 % w) * 4 + i % 4 := by
      have h3 := Nat.div_add_mod (i / 4) w
      have e : i / 4 / w * w = w * (i / 4 / w) := Nat.mul_comm _ _
      omega
    have hx2 : (if flipType = FLIP_HORIZONTAL then w - 1 - i / 4 % w else i / 4 % w) < w :=
      mirror_lt _ _ _ _ hx
    have hy2 : (if flipType = FLIP_VERTICAL then h - 1 - i / 4 / w else i / 4 / w) < h :=
      mirror_lt _ _ _ _ hy
    have hxx : (if flipType = FLIP_HORIZONTAL then
        w - 1 - (if flipType = FLIP_HORIZONTAL then w - 1 - i / 4 % w else i / 4 % w)
        else (if flipType = FLIP_HORIZONTAL then w - 1 - i / 4 % w else i / 4 % w)) =
        i / 4 % w := mirror_mirror _ _ _ _ hx
    have hyy : (if flipType = FLIP_VERTICAL then
        h - 1 - (if flipType = FLIP_VERTICAL then h - 1 - i / 4 / w else i / 4 / w)
        else (if flipType = FLIP_VERTICAL then h - 1 - i / 4 / w else i / 4 / w)) =
        i / 4 / w := mirror_mirror _ _ _ _ hy
    conv_lhs => rw [hie]
    rw [mirrorData_getD flipType w h _ _ _ _ hx hy hk,
      mirrorData_getD flipType w h _ _ _ _ hx2 hy2 hk, hxx, hyy, ← hie]

theorem opaque_onFlipClick (flipType : Nat) (c : Canvas)
    (hw : c.width ≠ 0) (hh : c.height ≠ 0)
    (hlen : c.data.length = c.width * c.height * 4) (ho : c.Opaque) :
    onFlipClick flipType { undoStack := [{ canvas := c, type := "" }], redoStack := [] } =
      .ok { undoStack := [{ canvas := c, type := "" },
              { canvas := { width := c.width, height := c.height,
                            data := mirrorData flipType c.width c.height c.data },
                type := "" }],
            redoStack := [] } := by
  have hc := createNextLayer_ok
    { undoStack := [{ canvas := c, type := "" }], redoStack := [] }
    { canvas := c, type := "" } rfl hw hh
  simp only at hc
  have hn : c.data.length = 4 * (c.width * c.height) := by rw [hlen]; ring
  have hz : (List.replicate (c.width * c.height * 4) 0).length = 4 * (c.width * c.height) := by
    simp; ring
  have hcopy := opaque_compositeData (c.width * c.height) c.data _ hn hz ho
  rw [hcopy] at hc
  have hm : (mirrorData flipType c.width c.height c.data).length =
      4 * (c.width * c.height) := by rw [mirrorData_length]; ring
  have hflip := opaque_compositeData (c.width * c.height)
    (mirrorData flipType c.width c.height c.data) c.data hm hn
    (opaque_mirrorData flipType c.width c.height c.data ho)
  simp [onFlipClick, hc, flipCanvas_ok, hw, hh, hflip, bind, Except.bind, pure,
    Except.pure]

/-- On a fully opaque buffer of the right byte count and non-zero size both
flip filters return the mirrored bytes. -/
theorem opaque_filterCanvas_flip (tieUp : Nat → Nat → Bool) (blurPasses : Canvas → Canvas) (c : Canvas)
    (hw : c.width ≠ 0) (hh : c.height ≠ 0)
    (hlen : c.data.length = c.width * c.height * 4) (ho : c.Opaque) :
    filterCanvas tieUp blurPasses .flipHorizontal c = .ok
        { width := c.width, height := c.height,
          data := mirrorData FLIP_HORIZONTAL c.width c.height c.data } ∧
      filterCanvas tieUp blurPasses .flipVertical c = .ok
        { width := c.width, height := c.height,
          data := mirrorData FLIP_VERTICAL c.width c.height c.data } := by
  constructor
  · simp [filterCanvas, applyFilter,
      opaque_onFlipClick FLIP_HORIZONTAL c hw hh hlen ho, bind, Except.bind,
      pure, Except.pure]
  · simp [filterCanvas, applyFilter,
      opaque_onFlipClick FLIP_VERTICAL c hw hh hlen ho, bind, Except.bind,
      pure, Except.pure]

/-- On a fully opaque buffer the horizontal flip sends the source pixel `(x, y)`
to `(width - 1 - x, y)`, the vertical flip sends it to `(x, height - 1 - y)`,
and each flip applied twice gives the buffer back. -/
theorem opaque_flip (tieUp : Nat → Nat → Bool) (blurPasses : Canvas → Canvas) (c : Canvas)
    (hw : c.width ≠ 0) (hh : c.height ≠ 0)
    (hlen : c.data.length = c.width * c.height * 4) (ho : c.Opaque) :
    ∃ fh fv : Canvas,
      filterCanvas tieUp blurPasses .flipHorizontal c = .ok fh ∧
      filterCanvas tieUp blurPasses .flipVertical c = .ok fv ∧
      filterCanvas tieUp blurPasses .flipHorizontal fh = .ok c ∧
      filterCanvas tieUp blurPasses .flipVertical fv = .ok c ∧
      ∀ x y k, x < c.width → y < c.height → k < 4 →
        fh.data.getD ((y * c.width + (c.width - 1 - x)) * 4 + k) 0 =
            c.data.getD ((y * c.width + x) * 4 + k) 0 ∧
          fv.data.getD (((c.height - 1 - y) * c.width + x) * 4 + k) 0 =
            c.data.getD ((y * c.width + x) * 4 + k) 0 := by
  obtain ⟨h1, h2⟩ := opaque_filterCanvas_flip tieUp blurPasses c hw hh hlen ho
  have hl : ∀ t, (mirrorData t c.width c.height c.data).length =
      c.width * c.height * 4 := by
    intro t; rw [mirrorData_length]; ring
  obtain ⟨h3, _⟩ := opaque_filterCanvas_flip tieUp blurPasses
    { width := c.width, height := c.height,
      data := mirrorData FLIP_HORIZONTAL c.width c.height c.data } hw hh (hl _)
    (opaque_mirrorData _ _ _ _ ho)
  obtain ⟨_, h4⟩ := opaque_filterCanvas_flip tieUp blurPasses
    { width := c.width, height := c.height,
      data := mirrorData FLIP_VERTICAL c.width c.height c.data } hw hh (hl _)
    (opaque_mirrorData _ _ _ _ ho)
  simp only [mirrorData_involutive _ _ _ _ hlen] at h3 h4
  refine ⟨_, _, h1, h2, h3, h4, ?_⟩
  intro x y k hx hy hk
  constructor
  · rw [mirrorData_getD _ _ _ _ _ _ _ (by omega) hy hk]
    have e1 : (if FLIP_HORIZONTAL = FLIP_VERTICAL then c.height - 1 - y else y) = y := by
      simp [FLIP_HORIZONTAL, FLIP_VERTICAL]
    have e2 : (if FLIP_HORIZONTAL = FLIP_HORIZONTAL then c.width - 1 - (c.width - 1 - x)
        else c.width - 1 - x) = x := by
      simp; omega
    rw [e1, e2]
  · rw [mirrorData_getD _ _ _ _ _ _ _ hx (by omega) hk]
    have e1 : (if FLIP_VERTICAL = FLIP_VERTICAL then c.height - 1 - (c.height - 1 - y)
        else c.height - 1 - y) = y := by
      simp; omega
    have e2 : (if FLIP_VERTICAL = FLIP_HORIZONTAL then c.width - 1 - x else x) = x := by
      simp [FLIP_HORIZONTAL, FLIP_VERTICAL]
    rw [e1, e2]

/-! ## Format tags -/

theorem onRedoClick_pop (s : App) (h : s.redoStack ≠ []) :
    ∃ top : Layer, s.redoStack.getLast? = some top ∧
      onRedoClick s =
        { undoStack := s.undoStack ++ [top], redoStack := s.redoStack.dropLast } := by
  cases htop : s.redoStack.getLast? with
  | none => exact absurd (List.getLast?_eq_none_iff.mp htop) h
  | some top =>
    have hlen : s.redoStack.length > 0 := List.length_pos.mpr h
    exact ⟨top, rfl, by simp [onRedoClick, hlen, htop]⟩

theorem step_filter_type (tieUp : Nat → Nat → Bool) (blurPasses : Canvas → Canvas) (f : Filter) (s : App) :
    step tieUp blurPasses s (.filter f) = s ∨
      ∃ (top : Layer) (c : Canvas), s.undoStack.getLast? = some top ∧
        step tieUp blurPasses s (.filter f) =
          { undoStack := s.undoStack ++ [{ canvas := c, type := top.type }],
            redoStack := s.redoStack } := by
  cases htop : s.undoStack.getLast? with
  | none =>
    left
    have h : s.undoStack = [] := List.getLast?_eq_none_iff.mp htop
    simp [step, applyFilter_empty tieUp blurPasses f s h]
  | some top =>
    by_cases hz : top.canvas.width = 0 ∨ top.canvas.height = 0
    · left
      simp [step, applyFilter_error tieUp blurPasses f s top htop hz]
    · right
      have hw : top.canvas.width ≠ 0 := fun h => hz (Or.inl h)
      have hh : top.canvas.height ≠ 0 := fun h => hz (Or.inr h)
      obtain ⟨c, hc⟩ := applyFilter_ok tieUp blurPasses f s top htop hw hh
      exact ⟨top, c, rfl, by simp [step, hc]⟩

theorem step_type (tieUp : Nat → Nat → Bool) (blurPasses : Canvas → Canvas) (s : App) (op : Op) (t : String)
    (h : ∀ l ∈ s.undoStack ++ s.redoStack, l.type = t) :
    ∀ l ∈ (step tieUp blurPasses s op).undoStack ++ (step tieUp blurPasses s op).redoStack,
      l.type = t := by
  cases op with
  | filter f =>
    rcases step_filter_type tieUp blurPasses f s with h1 | ⟨top, c, htop, h1⟩
    · rw [h1]; exact h
    · rw [h1]
      intro l hl
      simp only [List.mem_append, List.mem_singleton] at hl
      rcases hl with (hl | hl) | hl
      · exact h l (List.mem_append_left _ hl)
      · rw [hl]
        exact h top (List.mem_append_left _ (List.mem_of_getLast?_eq_some htop))
      · exact h l (List.mem_append_right _ hl)
  | undo =>
    by_cases hlen : 1 < s.undoStack.length
    · obtain ⟨top, htop, hu⟩ := onUndoClick_pop s hlen
      simp only [step, hu]
      intro l hl
      simp only [List.mem_append, List.mem_singleton] at hl
      rcases hl with hl | hl | hl
      · exact h l (List.mem_append_left _ (List.mem_of_mem_dropLast hl))
      · exact h l (List.mem_append_right _ hl)
      · rw [hl]
        exact h top (List.mem_append_left _ (List.mem_of_getLast?_eq_some htop))
    · simpa [step, onUndoClick, hlen] using h
  | redo =>
    by_cases hr : s.redoStack = []
    · simpa [step, onRedoClick, hr] using h
    · obtain ⟨top, htop, hu⟩ := onRedoClick_pop s hr
      simp only [step, hu]
      intro l hl
      simp only [List.mem_append, List.mem_singleton] at hl
      rcases hl with (hl | hl) | hl
      · exact h l (List.mem_append_left _ hl)
      · rw [hl]
        exact h top (List.mem_append_right _ (List.mem_of_getLast?_eq_some htop))
      · exact h l (List.mem_append_right _ (List.mem_of_mem_dropLast hl))

theorem run_type (tieUp : Nat → Nat → Bool) (blurPasses : Canvas → Canvas) (ops : List Op) (s : App) (t : String)
    (h : ∀ l ∈ s.undoStack ++ s.redoStack, l.type = t) :
    ∀ l ∈ (run tieUp blurPasses s ops).undoStack ++ (run tieUp blurPasses s ops).redoStack,
      l.type = t := by
  induction ops generalizing s with
  | nil => exact h
  | cons op rest ih => exact ih (step tieUp blurPasses s op) (step_type tieUp blurPasses s op t h)

/-- C11. Whenever a filter handler returns on a loaded history, it has pushed
exactly one layer, whose `type` is the `type` of the layer that was on top (and
it does return when the top canvas has a non-zero width and height).  Hence in
every state reached from an upload of `layer` by filter, undo and redo clicks,
every layer of `undoStack` and of `redoStack` carries `layer.type`. -/
theorem type_preserved (tieUp : Nat → Nat → Bool) (blurPasses : Canvas → Canvas) :
    (∀ (f : Filter) (s : App) (top : Layer), s.undoStack.getLast? = some top →
      (∀ s', applyFilter tieUp blurPasses f s = .ok s' →
        ∃ l : Layer, s'.undoStack = s.undoStack ++ [l] ∧ l.type = top.type) ∧
      (top.canvas.width ≠ 0 → top.canvas.height ≠ 0 →
        ∃ s', applyFilter tieUp blurPasses f s = .ok s')) ∧
    (∀ (layer : Layer) (s0 : App) (ops : List Op),
      ∀ l ∈ (run tieUp blurPasses (onSelectImage layer s0) ops).undoStack ++
          (run tieUp blurPasses (onSelectImage layer s0) ops).redoStack,
        l.type = layer.type) := by
  constructor
  · intro f s top htop
    constructor
    · intro s' hs'
      by_cases hz : top.canvas.width = 0 ∨ top.canvas.height = 0
      · rw [applyFilter_error tieUp blurPasses f s top htop hz] at hs'
        cases hs'
      · have hw : top.canvas.width ≠ 0 := fun h => hz (Or.inl h)
        have hh : top.canvas.height ≠ 0 := fun h => hz (Or.inr h)
        obtain ⟨c, hc⟩ := applyFilter_ok tieUp blurPasses f s top htop hw hh
        rw [hc] at hs'
        cases hs'
        exact ⟨_, rfl, rfl⟩
    · intro hw hh
      obtain ⟨c, hc⟩ := applyFilter_ok tieUp blurPasses f s top htop hw hh
      exact ⟨_, hc⟩
  · intro layer s0 ops
    apply run_type
    intro l hl
    simp [onSelectImage] at hl
    rw [hl]

/-- Witness of C11: the grayscale button on the uploaded 2x2 sample pushes a
layer of type `image/png`. -/
theorem type_preserved_witness :
    ∃ l : Layer,
      [sampleLayer, sampleGrayLayer] = (onSelectImage sampleLayer App.empty).undoStack ++ [l] ∧
        l.type = sampleLayer.type :=
  ((type_preserved halfUp id).1 .grayscale (onSelectImage sampleLayer App.empty) sampleLayer rfl).1
    { undoStack := [sampleLayer, sampleGrayLayer], redoStack := [] } rfl

/-! ## Clamp-to-edge reads -/

theorem clampIndex_eq (hi : Nat) (v : Int) (h : 1 ≤ hi) :
    (clampIndex hi v : Int) = clamp v 0 ((hi : Int) - 1) ∧ clampIndex hi v < hi := by
  unfold clampIndex clamp
  have h1 : (0 : Int) ≤ min ((hi : Int) - 1) (max 0 v) := by omega
  constructor
  · rw [Int.toNat_of_nonneg h1]
    split
    · omega
    · split <;> omega
  · omega

/-- C12. For a buffer of width and height at least 1, any output pixel `(x, y)`
and any kernel cell `(cx, cy)` of a kernel of side `N`, the pixel the
convolution reads is `(clamp (x + cx - N / 2) 0 (width - 1),
clamp (y + cy - N / 2) 0 (height - 1))`; it lies inside the buffer, its offset
is a multiple of 4 and `offset + 3 < width * height * 4`: the read is neither
out of bounds, nor wrapped, nor replaced by zero. -/
theorem srcOff_in_bounds (sw sh N x y cx cy : Nat) (hw : 1 ≤ sw) (hh : 1 ≤ sh) :
    ∃ scx scy : Nat,
      (scx : Int) = clamp ((x : Int) + cx - (N / 2 : Nat)) 0 ((sw : Int) - 1) ∧
      (scy : Int) = clamp ((y : Int) + cy - (N / 2 : Nat)) 0 ((sh : Int) - 1) ∧
      scx < sw ∧ scy < sh ∧
      srcOff sw sh (N / 2) x y cx cy = (scy * sw + scx) * 4 ∧
      srcOff sw sh (N / 2) x y cx cy + 3 < sw * sh * 4 := by
  obtain ⟨ex, hx⟩ := clampIndex_eq sw ((x : Int) + cx - (N / 2 : Nat)) hw
  obtain ⟨ey, hy⟩ := clampIndex_eq sh ((y : Int) + cy - (N / 2 : Nat)) hh
  refine ⟨_, _, ex, ey, hx, hy, rfl, ?_⟩
  exact index_lt sw sh _ _ 3 hx hy (by decide)

/-- Witness of C12: the corner pixel `(0, 0)` of a 2x3 buffer under the top-left
cell of a 3x3 kernel. -/
theorem srcOff_in_bounds_witness :
    ∃ scx scy : Nat,
      (scx : Int) = clamp ((0 : Nat) + (0 : Nat) - (3 / 2 : Nat)) 0 (((2 : Nat) : Int) - 1) ∧
      (scy : Int) = clamp ((0 : Nat) + (0 : Nat) - (3 / 2 : Nat)) 0 (((3 : Nat) : Int) - 1) ∧
      scx < 2 ∧ scy < 3 ∧
      srcOff 2 3 (3 / 2) 0 0 0 0 = (scy * 2 + scx) * 4 ∧
      srcOff 2 3 (3 / 2) 0 0 0 0 + 3 < 2 * 3 * 4 :=
  srcOff_in_bounds 2 3 3 0 0 0 0 (by decide) (by decide)

/-! ## Reading the top layer, zero-sized canvases, stale redo -/

/-- C13, as stated, fails: on the freshly constructed `App` neither reader of the
top layer raises an error. -/
theorem top_of_empty_counterexample :
    (¬ ∃ e, onDownloadClick App.empty = .error e) ∧
      (¬ ∃ e, updateImage App.empty = .error e) := by
  constructor
  · rintro ⟨e, he⟩
    cases he
  · rintro ⟨e, he⟩
    cases he

/-- C13, amended. On a history that was never loaded, asking for the top layer
to download it or to redraw it returns silently: no error is raised and no
layer is returned. -/
theorem top_of_empty (s : App) (h : s.undoStack = []) :
    onDownloadClick s = .ok none ∧ updateImage s = .ok none := by
  simp [onDownloadClick, updateImage, h]

/-- Witness of the amended C13 on the freshly constructed `App`. -/
theorem top_of_empty_witness :
    onDownloadClick App.empty = .ok none ∧ updateImage App.empty = .ok none :=
  top_of_empty App.empty rfl

/-- C14. When the canvas on top of `undoStack` has width 0 or height 0, every
filter handler fails (`drawImage` raises in `createNextLayer`) and the click
leaves `undoStack` and `redoStack` as they were: nothing is pushed. -/
theorem filter_zero_size_fails (tieUp : Nat → Nat → Bool) (blurPasses : Canvas → Canvas) (f : Filter) (s : App)
    (top : Layer) (htop : s.undoStack.getLast? = some top)
    (hz : top.canvas.width = 0 ∨ top.canvas.height = 0) :
    (∃ e, applyFilter tieUp blurPasses f s = .error e) ∧
      step tieUp blurPasses s (.filter f) = s := by
  have he := applyFilter_error tieUp blurPasses f s top htop hz
  exact ⟨⟨_, he⟩, by simp [step, he]⟩

/-- Witness of C14: the edges button on a loaded history with a 0x0 canvas. -/
theorem filter_zero_size_fails_witness :
    (∃ e, applyFilter halfUp id .edges zeroSizedApp = .error e) ∧
      step halfUp id zeroSizedApp (.filter .edges) = zeroSizedApp :=
  filter_zero_size_fails halfUp id .edges zeroSizedApp
    { canvas := { width := 0, height := 0, data := [] }, type := "image/png" } rfl
    (Or.inl rfl)

/-- C15. Redo can resurrect a stale branch: after upload of `L0`, grayscale,
undo, horizontal flip, redo, `undoStack` is `[L0, flip L0, gray L0]` and
`redoStack` is empty, although the grayscale of the layer beneath the top
(`flip L0`) is a different buffer from the top. -/
theorem stale_redo :
    ∃ (L0 lA lB : Layer) (A B : Filter),
      step halfUp id (onSelectImage L0 App.empty) (.filter A) =
        { undoStack := [L0, lA], redoStack := [] } ∧
      step halfUp id (onSelectImage L0 App.empty) (.filter B) =
        { undoStack := [L0, lB], redoStack := [] } ∧
      run halfUp id (onSelectImage L0 App.empty) [.filter A, .undo, .filter B, .redo] =
        { undoStack := [L0, lB, lA], redoStack := [] } ∧
      ∃ c, filterCanvas halfUp id A lB.canvas = .ok c ∧ c ≠ lA.canvas := by
  refine ⟨sampleLayer, sampleGrayLayer, sampleFlipLayer, .grayscale, .flipHorizontal,
    rfl, rfl, rfl,
    { width := 2, height := 2,
      data := [85, 85, 85, 255, 85, 85, 85, 255, 255, 255, 255, 255, 85, 85, 85, 255] },
    rfl, ?_⟩
  decide

/-! ## Alpha of the convolution -/

theorem roundSqrt_sq (n : Nat) : roundSqrt (n * n) = n := by
  unfold roundSqrt
  have h : (List.range (n * n + 1)).find? (fun s => decide (n * n ≤ s * s + s)) =
      some n := by
    rw [List.find?_range_eq_some]
    refine ⟨by simp, ?_, ?_⟩
    · have := Nat.le_mul_self n
      simp only [List.mem_range]
      omega
    · intro j hj
      have h1 : (j + 1) * (j + 1) ≤ n * n := Nat.mul_le_mul hj hj
      have h2 : (j + 1) * (j + 1) = j * j + j + j + 1 := by ring
      simp only [Bool.not_eq_true', decide_eq_false_iff_not, Nat.not_le]
      omega
  rw [h]
  rfl

theorem foldl_add_eq_sum {α : Type} (g : α → Int) (l : List α) (init : Int) :
    l.foldl (fun acc a => acc + g a) init = init + (l.map g).sum := by
  induction l generalizing init with
  | nil => simp
  | cons a t ih =>
    simp only [List.foldl_cons, List.map_cons, List.sum_cons]
    rw [ih]
    ring

/-! ## Undo after redo -/

theorem onUndoClick_push (u r : List Layer) (top : Layer) (hu : u ≠ []) :
    onUndoClick { undoStack := u ++ [top], redoStack := r } =
      { undoStack := u, redoStack := r ++ [top] } := by
  have hlen : (u ++ [top]).length > 1 := by
    have := List.length_pos.mpr hu
    simp only [List.length_append, List.length_singleton]
    omega
  simp [onUndoClick, hlen, hu]

/-- C18. In every state reached from an upload by filter, undo and redo clicks
whose `redoStack` is not empty, undo after redo gives the state back exactly.
Reachability is needed: on the never-loaded state with one layer in
`redoStack`, redo then undo does not give the state back. -/
theorem undo_redo_eq :
    (∀ (tieUp : Nat → Nat → Bool) (blurPasses : Canvas → Canvas) (layer : Layer) (s0 : App) (ops : List Op),
      (run tieUp blurPasses (onSelectImage layer s0) ops).redoStack ≠ [] →
      onUndoClick (onRedoClick (run tieUp blurPasses (onSelectImage layer s0) ops)) =
        run tieUp blurPasses (onSelectImage layer s0) ops) ∧
    onUndoClick (onRedoClick { undoStack := [], redoStack := [sampleLayer] }) ≠
      { undoStack := [], redoStack := [sampleLayer] } := by
  constructor
  · intro tieUp blurPasses layer s0 ops hr
    have hhead := run_head? tieUp blurPasses ops (onSelectImage layer s0) layer rfl
    generalize run tieUp blurPasses (onSelectImage layer s0) ops = s at hr hhead
    obtain ⟨top, htop, hredo⟩ := onRedoClick_pop s hr
    have hu : s.undoStack ≠ [] := by
      intro h0
      simp [h0] at hhead
    rw [hredo, onUndoClick_push _ _ _ hu]
    have hlast : s.redoStack.dropLast ++ [top] = s.redoStack :=
      List.dropLast_append_getLast? top (by simpa using htop)
    cases s with
    | mk u r =>
      simp only at hlast
      simp [hlast]
  · decide

/-- Witness of C18: the state after upload, grayscale, undo has `sampleGrayLayer`
in `redoStack`; redo then undo returns it. -/
theorem undo_redo_eq_witness :
    onUndoClick (onRedoClick
        (run halfUp id (onSelectImage sampleLayer App.empty) [.filter .grayscale, .undo])) =
      run halfUp id (onSelectImage sampleLayer App.empty) [.filter .grayscale, .undo] :=
  undo_redo_eq.1 halfUp id sampleLayer App.empty [.filter .grayscale, .undo] (by decide)

/-! ## Edge detection of a buffer of constant red -/

/-! ## Blur opacities -/

theorem blurOffsets_eq : blurOffsets = blurOffsetsList := by decide

theorem foldl_add_eq_sum_real {α : Type} (g : α → ℝ) (l : List α) (init : ℝ) :
    l.foldl (fun acc a => acc + g a) init = init + (l.map g).sum := by
  induction l generalizing init with
  | nil => simp
  | cons a t ih =>
    simp only [List.foldl_cons, List.map_cons, List.sum_cons]
    rw [ih]
    ring

theorem blurSum_eq : blurSum = (blurOffsets.map fun p => weight p.1 p.2).sum := by
  unfold blurSum
  rw [foldl_add_eq_sum_real (fun p : Int × Int => weight p.1 p.2)]
  ring

theorem alpha_left_pos : 0 < alpha_left := by
  unfold alpha_left delta
  have := Real.pi_pos
  positivity

theorem weight_pos (x y : Int) : 0 < weight x y :=
  mul_pos alpha_left_pos (Real.exp_pos _)

theorem sum_map_pos {α : Type} (g : α → ℝ) (l : List α) (hl : l ≠ [])
    (hg : ∀ a ∈ l, 0 < g a) : 0 < (l.map g).sum := by
  induction l with
  | nil => exact absurd rfl hl
  | cons a t ih =>
    simp only [List.map_cons, List.sum_cons]
    by_cases ht : t = []
    · subst ht
      simpa using hg a (by simp)
    · have h1 := hg a (by simp)
      have h2 := ih ht (fun b hb => hg b (by simp [hb]))
      linarith

theorem blurSum_pos : 0 < blurSum := by
  rw [blurSum_eq]
  apply sum_map_pos
  · rw [blurOffsets_eq]; decide
  · intro p _
    exact weight_pos p.1 p.2

theorem sum_map_div_mul {α : Type} (g : α → ℝ) (S c : ℝ) (l : List α) :
    (l.map fun a => g a / S * c).sum = (l.map g).sum / S * c := by
  induction l with
  | nil => simp
  | cons a t ih =>
    simp only [List.map_cons, List.sum_cons, ih]
    ring

/-- C17. With `blur = 6` and `delta = 5` the step is 2, each loop visits
`-6, -4, -2, 0, 2, 4, 6`, and the passes are the 49 offsets of that grid in
raster order (`y` outer, `x` inner).  The opacity of the pass at `(x, y)` is
`weight x y / blurSum * blur` with `blurSum` the sum of the weights over the
same grid, so over the reals the 49 opacities sum to 6. -/
theorem blur_opacities_sum :
    blurStep = 2 ∧
    forRange (-(blur : Int)) blur blurStep = [-6, -4, -2, 0, 2, 4, 6] ∧
    blurOffsets = blurOffsetsList ∧
    blurOffsets.length = 49 ∧
    blurSum = (blurOffsets.map fun p => weight p.1 p.2).sum ∧
    (∀ x y, globalAlpha x y = weight x y / blurSum * 6) ∧
    (blurOffsets.map fun p => globalAlpha p.1 p.2).sum = 6 := by
  refine ⟨by decide, by decide, blurOffsets_eq, by rw [blurOffsets_eq]; decide,
    blurSum_eq, ?_, ?_⟩
  · intro x y
    simp [globalAlpha, blur]
  · have h := sum_map_div_mul (fun p : Int × Int => weight p.1 p.2) blurSum
      (blur : ℝ) blurOffsets
    have hne : blurSum ≠ 0 := ne_of_gt blurSum_pos
    unfold globalAlpha
    rw [h, ← blurSum_eq, div_self hne]
    simp [blur]

theorem weight_le_centre (x y : Int) : weight x y ≤ weight 0 0 := by
  unfold weight
  apply mul_le_mul_of_nonneg_left _ (le_of_lt alpha_left_pos)
  apply Real.exp_le_exp.mpr
  have h : (0 : ℝ) ≤ ((x * x + y * y : Int) : ℝ) := by
    have : (0 : Int) ≤ x * x + y * y := by nlinarith [mul_self_nonneg x, mul_self_nonneg y]
    exact_mod_cast this
  have hd : (0 : ℝ) < 2 * (delta : ℝ) * delta := by
    unfold delta; norm_num
  have h1 : -((x * x + y * y : Int) : ℝ) / (2 * (delta : ℝ) * delta) ≤ 0 :=
    div_nonpos_of_nonpos_of_nonneg (by linarith) (le_of_lt hd)
  simpa using h1

theorem weight_centre : weight 0 0 = alpha_left := by
  simp [weight]

theorem weight_lower (x y : Int) :
    alpha_left * (1 - ((x * x + y * y : Int) : ℝ) / 50) ≤ weight x y := by
  unfold weight
  apply mul_le_mul_of_nonneg_left _ (le_of_lt alpha_left_pos)
  have h := Real.add_one_le_exp (-((x * x + y * y : Int) : ℝ) / (2 * (delta : ℝ) * delta))
  have e : -((x * x + y * y : Int) : ℝ) / (2 * (delta : ℝ) * delta) + 1 =
      1 - ((x * x + y * y : Int) : ℝ) / 50 := by
    unfold delta
    push_cast
    ring
  rw [e] at h
  exact h

theorem centre_le_blurSum : (blurCentre.map fun p => weight p.1 p.2).sum ≤ blurSum := by
  rw [blurSum_eq, blurOffsets_eq]
  apply List.Sublist.sum_le_sum
  · apply List.Sublist.map
    decide
  · intro a ha
    simp only [List.mem_map] at ha
    obtain ⟨p, _, hp⟩ := ha
    rw [← hp]
    exact le_of_lt (weight_pos p.1 p.2)

theorem six_centre_lt_blurSum : 6 * weight 0 0 < blurSum := by
  have h := centre_le_blurSum
  simp only [blurCentre, List.map_cons, List.map_nil, List.sum_cons, List.sum_nil] at h
  have a := alpha_left_pos
  have h1 := weight_lower (-2) (-2)
  have h2 := weight_lower 0 (-2)
  have h3 := weight_lower 2 (-2)
  have h4 := weight_lower (-2) 0
  have h5 := weight_lower 2 0
  have h6 := weight_lower (-2) 2
  have h7 := weight_lower 0 2
  have h8 := weight_lower 2 2
  have h0 := weight_centre
  norm_num at h1 h2 h3 h4 h5 h6 h7 h8
  linarith

/-- C20. Over the reals, the opacity assigned in each of the 49 passes lies
strictly between 0 and 1, and none exceeds the opacity of the pass at the
offset `(0, 0)`, which is one of the 49. -/
theorem blur_opacities_bounds :
    (0, 0) ∈ blurOffsets ∧
    ∀ p ∈ blurOffsets,
      0 < globalAlpha p.1 p.2 ∧ globalAlpha p.1 p.2 < 1 ∧
        globalAlpha p.1 p.2 ≤ globalAlpha 0 0 := by
  have hS := blurSum_pos
  have hmax : ∀ x y, globalAlpha x y ≤ globalAlpha 0 0 := by
    intro x y
    unfold globalAlpha
    have hb : (0 : ℝ) ≤ (blur : ℝ) := by unfold blur; norm_num
    exact mul_le_mul_of_nonneg_right
      (div_le_div_of_nonneg_right (weight_le_centre x y) (le_of_lt hS)) hb
  have hcentre : globalAlpha 0 0 < 1 := by
    unfold globalAlpha
    have h6 := six_centre_lt_blurSum
    have e : weight 0 0 / blurSum * (blur : ℝ) = 6 * weight 0 0 / blurSum := by
      unfold blur
      push_cast
      ring
    rw [e, div_lt_one hS]
    exact h6
  refine ⟨by rw [blurOffsets_eq]; decide, ?_⟩
  intro p _
  refine ⟨?_, lt_of_le_of_lt (hmax p.1 p.2) hcentre, hmax p.1 p.2⟩
  unfold globalAlpha
  have hb : (0 : ℝ) < (blur : ℝ) := by unfold blur; norm_num
  exact mul_pos (div_pos (weight_pos p.1 p.2) hS) hb

/-- Witness of C20 at the pass of offset `(6, -4)`. -/
theorem blur_opacities_bounds_witness :
    0 < globalAlpha 6 (-4) ∧ globalAlpha 6 (-4) < 1 ∧
      globalAlpha 6 (-4) ≤ globalAlpha 0 0 :=
  blur_opacities_bounds.2 (6, -4) (by rw [blurOffsets_eq]; decide)

/-! ## Exactness of the accumulators of small integer kernels -/

theorem roundToBits_small (bits : Nat) (n : Int) (h : n.natAbs < 2 ^ bits) :
    roundToBits bits n = n := by
  unfold roundToBits
  simp only
  rw [if_pos h]

theorem toDouble_small (n : Int) (h : n.natAbs < 2 ^ 24) : toDouble n = n :=
  roundToBits_small 53 n (lt_trans h (by decide))

theorem toFloat32_small (n : Int) (h : n.natAbs < 2 ^ 24) : toFloat32 n = n :=
  roundToBits_small 24 n h

theorem foldl_exact {α : Type} (F : Int → α → Int) (S : α → Int) (M : Nat) (l : List α)
    (hF : ∀ acc a, a ∈ l → acc.natAbs + M < 2 ^ 24 → F acc a = acc + S a)
    (hS : ∀ a ∈ l, (S a).natAbs ≤ M) :
    ∀ init : Int, init.natAbs + l.length * M < 2 ^ 24 →
      l.foldl F init = init + (l.map S).sum ∧
        (init + (l.map S).sum).natAbs ≤ init.natAbs + l.length * M := by
  induction l with
  | nil =>
    intro init _
    simp
  | cons a t ih =>
    intro init hb
    have hlen : (a :: t).length * M = M + t.length * M := by
      simp only [List.length_cons]; ring
    rw [hlen] at hb
    have h1 : F init a = init + S a := hF init a (by simp) (by omega)
    have h2 : (init + S a).natAbs ≤ init.natAbs + M :=
      le_trans (Int.natAbs_add_le _ _) (Nat.add_le_add_left (hS a (by simp)) _)
    obtain ⟨e1, e2⟩ := ih (fun acc b hb' hacc => hF acc b (by simp [hb']) hacc)
      (fun b hb' => hS b (by simp [hb'])) (init + S a) (by omega)
    simp only [List.foldl_cons, List.map_cons, List.sum_cons]
    rw [h1, e1, hlen]
    constructor
    · ring
    · rw [show init + (S a + (t.map S).sum) = init + S a + (t.map S).sum by ring]
      omega

theorem getD_le (l : List Nat) (i : Nat) (h : ∀ v ∈ l, v ≤ 255) : l.getD i 0 ≤ 255 := by
  by_cases hi : i < l.length
  · rw [List.getD_eq_getElem _ _ hi]
    exact h _ (List.getElem_mem _)
  · rw [List.getD_eq_default _ _ (by omega)]
    decide

theorem getD_natAbs_le (l : List Int) (i B : Nat) (h : ∀ w ∈ l, w.natAbs ≤ B) :
    (l.getD i 0).natAbs ≤ B := by
  by_cases hi : i < l.length
  · rw [List.getD_eq_getElem _ _ hi]
    exact h _ (List.getElem_mem _)
  · rw [List.getD_eq_default _ _ (by omega)]
    simp

theorem convAcc_exact (src : List Nat) (sw sh : Nat) (weights : List Int)
    (side halfSide x y k B : Nat) (hsrc : ∀ v ∈ src, v ≤ 255)
    (hB : ∀ w ∈ weights, w.natAbs ≤ B) (hsmall : side * side * (255 * B) < 2 ^ 24) :
    convAcc src sw sh weights side halfSide x y k =
        convSum src sw sh weights side halfSide x y k ∧
      (convSum src sw sh weights side halfSide x y k).natAbs ≤ side * side * (255 * B) := by
  have hterm : ∀ cx cy,
      ((src.getD (srcOff sw sh halfSide x y cx cy + k) 0 : Int) *
        weights.getD (cy * side + cx) 0).natAbs ≤ 255 * B := by
    intro cx cy
    rw [Int.natAbs_mul, Int.natAbs_ofNat]
    exact Nat.mul_le_mul (getD_le src _ hsrc) (getD_natAbs_le weights _ B hB)
  have hinner : ∀ cy, cy ∈ List.range side → ∀ acc : Int,
      acc.natAbs + side * (255 * B) < 2 ^ 24 →
      (List.range side).foldl (fun acc cx =>
          toDouble (acc + toDouble
            ((src.getD (srcOff sw sh halfSide x y cx cy + k) 0 : Int) *
              toDouble (weights.getD (cy * side + cx) 0)))) acc =
        acc + ((List.range side).map fun cx =>
          (src.getD (srcOff sw sh halfSide x y cx cy + k) 0 : Int) *
            weights.getD (cy * side + cx) 0).sum ∧
      (acc + ((List.range side).map fun cx =>
          (src.getD (srcOff sw sh halfSide x y cx cy + k) 0 : Int) *
            weights.getD (cy * side + cx) 0).sum).natAbs ≤
        acc.natAbs + side * (255 * B) := by
    intro cy hcy acc hacc
    have hside : 0 < side := by
      have := List.mem_range.mp hcy
      omega
    have hB24 : 255 * B < 2 ^ 24 := by
      have : 1 * 1 * (255 * B) ≤ side * side * (255 * B) :=
        Nat.mul_le_mul_right _ (Nat.mul_le_mul hside hside)
      omega
    have h := foldl_exact
      (fun acc cx => toDouble (acc + toDouble
        ((src.getD (srcOff sw sh halfSide x y cx cy + k) 0 : Int) *
          toDouble (weights.getD (cy * side + cx) 0))))
      (fun cx => (src.getD (srcOff sw sh halfSide x y cx cy + k) 0 : Int) *
        weights.getD (cy * side + cx) 0)
      (255 * B) (List.range side)
      (by
        intro acc' cx _ hacc'
        have hw : toDouble (weights.getD (cy * side + cx) 0) =
            weights.getD (cy * side + cx) 0 :=
          toDouble_small _ (lt_of_le_of_lt
            (getD_natAbs_le weights (cy * side + cx) B hB) (by omega))
        have ht := hterm cx cy
        have e1 := toDouble_small _ (lt_of_le_of_lt ht hB24)
        have e2 := toDouble_small _ (lt_of_le_of_lt
          (le_trans (Int.natAbs_add_le acc' _) (Nat.add_le_add_left ht _)) hacc')
        simp only
        rw [hw, e1, e2])
      (fun cx _ => hterm cx cy) acc (by simpa using hacc)
    simpa using h
  have houter := foldl_exact
    (fun acc cy => (List.range side).foldl (fun acc cx =>
      toDouble (acc + toDouble
        ((src.getD (srcOff sw sh halfSide x y cx cy + k) 0 : Int) *
          toDouble (weights.getD (cy * side + cx) 0)))) acc)
    (fun cy => ((List.range side).map fun cx =>
      (src.getD (srcOff sw sh halfSide x y cx cy + k) 0 : Int) *
        weights.getD (cy * side + cx) 0).sum)
    (side * (255 * B)) (List.range side)
    (fun acc cy hcy hacc => (hinner cy hcy acc hacc).1)
    (by
      intro cy hcy
      have hside : 0 < side := by
        have := List.mem_range.mp hcy
        omega
      have h0 := (hinner cy hcy 0 (by
        have : side * (255 * B) ≤ side * side * (255 * B) := by
          rw [Nat.mul_assoc]
          exact Nat.le_mul_of_pos_left _ hside
        simp only [Int.natAbs_zero, Nat.zero_add]
        omega)).2
      simpa using h0)
    0 (by
      simp only [Int.natAbs_zero, Nat.zero_add, List.length_range]
      rw [← Nat.mul_assoc]
      exact hsmall)
  unfold convAcc convSum
  simp only [Int.natAbs_zero, Nat.zero_add, List.length_range, Int.zero_add] at houter
  rw [← Nat.mul_assoc] at houter
  exact houter

/-! ## Alpha of the convolution -/

/-- C16, as stated, fails for kernels with large weights.  On one opaque pixel
the 1x1 kernel `[10 ^ 16]` with `opaqueOutput` gives the output alpha 0, not
255 (`255 - a` is rounded to `-a`), and the 1x1 kernel `[16777217]` without it
gives the output alpha 4278190336 while the weighted sum of the alpha is
4278190335 (the `Float32Array` keeps 24 bits). -/
theorem convolute_alpha_counterexample :
    (convoluteFloat32 opaquePixel [10000000000000000] true).data.getD 3 0 = 0 ∧
      (convoluteFloat32 opaquePixel [16777217] false).data.getD 3 0 = 4278190336 ∧
      convSum opaquePixel.data 1 1 [16777217] 1 0 0 0 3 = 4278190335 := by
  decide

/-- C16, amended. For every buffer of bytes, every kernel of `N * N` integer
weights of magnitude at most `B` with `N * N * (255 * B) < 2 ^ 24`, and every
output pixel `(x, y)`: with `opaqueOutput` the output alpha is exactly 255;
without it the output alpha is the weighted sum of the alpha bytes read for the
kernel cells, so that two buffers of the same size with the same alpha bytes
get the same output alpha. -/
theorem convolute_alpha (pixels : ImageData) (weights : List Int) (N B : Nat)
    (hsrc : ∀ v ∈ pixels.data, v ≤ 255) (hsq : weights.length = N * N)
    (hB : ∀ w ∈ weights, w.natAbs ≤ B) (hsmall : N * N * (255 * B) < 2 ^ 24)
    (x y : Nat) (hx : x < pixels.width) (hy : y < pixels.height) :
    (convoluteFloat32 pixels weights true).data.getD
        ((y * pixels.width + x) * 4 + 3) 0 = 255 ∧
    (convoluteFloat32 pixels weights false).data.getD
        ((y * pixels.width + x) * 4 + 3) 0 =
      convSum pixels.data pixels.width pixels.height weights N (N / 2) x y 3 ∧
    ∀ other : ImageData, other.width = pixels.width → other.height = pixels.height →
      (∀ v ∈ other.data, v ≤ 255) →
      (∀ i, other.data.getD (4 * i + 3) 0 = pixels.data.getD (4 * i + 3) 0) →
      (convoluteFloat32 other weights false).data.getD
          ((y * pixels.width + x) * 4 + 3) 0 =
        (convoluteFloat32 pixels weights false).data.getD
          ((y * pixels.width + x) * 4 + 3) 0 := by
  have hside : roundSqrt weights.length = N := by rw [hsq, roundSqrt_sq]
  have hfalse : ∀ p : ImageData, p.width = pixels.width → p.height = pixels.height →
      (∀ v ∈ p.data, v ≤ 255) →
      (convoluteFloat32 p weights false).data.getD
          ((y * pixels.width + x) * 4 + 3) 0 =
        convSum p.data pixels.width pixels.height weights N (N / 2) x y 3 := by
    intro p hpw hph hp
    have h := convoluteFloat32_getD p weights false x y 3 (by rw [hpw]; exact hx)
      (by rw [hph]; exact hy) (by decide)
    rw [hpw, hph, hside] at h
    obtain ⟨e, hb⟩ := convAcc_exact p.data pixels.width pixels.height weights N (N / 2)
      x y 3 B hp hB hsmall
    rw [h]
    simp only [convPixel, e, Bool.false_eq_true, if_false]
    show toFloat32 (toDouble (_ + toDouble (0 * toDouble (255 - _)))) = _
    have h0 : ∀ z : Int, toDouble (0 * z) = 0 := by
      intro z
      rw [Int.zero_mul]
      exact toDouble_small 0 (by decide)
    rw [h0, Int.add_zero, toDouble_small _ (by omega), toFloat32_small _ (by omega)]
  refine ⟨?_, hfalse pixels rfl rfl hsrc, ?_⟩
  · have h := convoluteFloat32_getD pixels weights true x y 3 hx hy (by decide)
    rw [hside] at h
    obtain ⟨e, hb⟩ := convAcc_exact pixels.data pixels.width pixels.height weights N
      (N / 2) x y 3 B hsrc hB hsmall
    rw [h]
    simp only [convPixel, e, if_true]
    show toFloat32 (toDouble (_ + toDouble (1 * toDouble (255 - _)))) = _
    have h1 : toDouble (255 - convSum pixels.data pixels.width pixels.height weights N
        (N / 2) x y 3) = 255 - convSum pixels.data pixels.width pixels.height weights N
        (N / 2) x y 3 := roundToBits_small 53 _ (by omega)
    rw [h1, Int.one_mul, h1]
    have h2 : convSum pixels.data pixels.width pixels.height weights N (N / 2) x y 3 +
        (255 - convSum pixels.data pixels.width pixels.height weights N (N / 2) x y 3) =
        255 := by omega
    rw [h2]
    decide
  · intro other hw hh hother halpha
    rw [hfalse other hw hh hother, hfalse pixels rfl rfl hsrc]
    have e : ∀ cx cy, srcOff pixels.width pixels.height (N / 2) x y cx cy + 3 =
        4 * (clampIndex pixels.height ((y : Int) + cy - (N / 2 : Nat)) * pixels.width +
          clampIndex pixels.width ((x : Int) + cx - (N / 2 : Nat))) + 3 := by
      intro cx cy
      unfold srcOff
      ring
    unfold convSum
    simp only [e, halpha]

/-- Witness of the amended C16 on one opaque pixel and the vertical Sobel kernel
(`N = 3`, `B = 2`): with `opaqueOutput` the output alpha is 255. -/
theorem convolute_alpha_witness :
    (convoluteFloat32 opaquePixel sobelVertical true).data.getD ((0 * 1 + 0) * 4 + 3) 0 =
      255 :=
  (convolute_alpha opaquePixel sobelVertical 3 2 (by decide) rfl (by decide) (by decide)
    0 0 (by decide) (by decide)).1

/-! ## The premultiplied store -/

theorem premultiply_le (c a : Nat) (hc : c ≤ 255) : premultiply c a ≤ a := by
  unfold premultiply roundDiv
  have h1 : c * a ≤ 255 * a := Nat.mul_le_mul_right a hc
  apply Nat.le_of_lt_succ
  apply Nat.div_lt_of_lt_mul
  omega

theorem unpremultiply_le (tieUp : Nat → Nat → Bool) (p a : Nat) :
    unpremultiply tieUp p a ≤ 255 := by
  unfold unpremultiply
  split
  · decide
  · exact Nat.min_le_left _ _

theorem premultiply_unpremultiply (tieUp : Nat → Nat → Bool) (p a : Nat) (ha : a ≤ 255)
    (hp : p ≤ a) : premultiply (unpremultiply tieUp p a) a = p := by
  rcases Nat.eq_zero_or_pos a with h0 | hpos
  · subst h0
    have : p = 0 := by omega
    subst this
    simp [premultiply, unpremultiply, roundDiv]
  · have hdm := Nat.div_add_mod (p * 255) a
    have hr : p * 255 % a < a := Nat.mod_lt _ hpos
    have hq : p * 255 / a ≤ 255 := by
      apply Nat.div_le_of_le_mul
      have := Nat.mul_le_mul_right 255 hp
      rw [Nat.mul_comm a 255] at this
      rw [Nat.mul_comm a 255]
      omega
    have hq1 : 0 < p * 255 % a → p * 255 / a ≤ 254 := by
      intro hr0
      by_contra hc
      have h255 : 255 ≤ p * 255 / a := by omega
      have h1 : a * 255 ≤ a * (p * 255 / a) := Nat.mul_le_mul_left a h255
      omega
    have key : ∀ u : Nat, (u = p * 255 / a ∧ 2 * (p * 255 % a) ≤ a ∨
        u = p * 255 / a + 1 ∧ a ≤ 2 * (p * 255 % a)) → premultiply u a = p := by
      intro u hu
      unfold premultiply roundDiv
      apply Nat.div_eq_of_lt_le
      · rcases hu with ⟨e, h⟩ | ⟨e, h⟩
        · rw [e, Nat.mul_comm (p * 255 / a) a]
          omega
        · rw [e, Nat.add_mul, Nat.mul_comm (p * 255 / a) a]
          omega
      · rcases hu with ⟨e, h⟩ | ⟨e, h⟩
        · rw [e, Nat.mul_comm (p * 255 / a) a]
          omega
        · rw [e, Nat.add_mul, Nat.mul_comm (p * 255 / a) a]
          omega
    unfold unpremultiply
    rw [if_neg (by omega)]
    simp only
    by_cases h1 : 2 * (p * 255 % a) < a
    · rw [if_pos h1, Nat.min_eq_right hq]
      exact key _ (Or.inl ⟨rfl, by omega⟩)
    · rw [if_neg h1]
      have hr0 : 0 < p * 255 % a := by omega
      have hq254 := hq1 hr0
      by_cases h2 : a < 2 * (p * 255 % a)
      · rw [if_pos h2, Nat.min_eq_right (by omega)]
        exact key _ (Or.inr ⟨rfl, by omega⟩)
      · rw [if_neg h2]
        by_cases h3 : tieUp p a = true
        · rw [if_pos h3, Nat.min_eq_right (by omega)]
          exact key _ (Or.inr ⟨rfl, by omega⟩)
        · rw [if_neg h3, Nat.min_eq_right hq]
          exact key _ (Or.inl ⟨rfl, by omega⟩)

theorem storedByte_idem (tieUp : Nat → Nat → Bool) (c a : Nat) (hc : c ≤ 255)
    (ha : a ≤ 255) :
    storedByte tieUp (storedByte tieUp c a) a = storedByte tieUp c a := by
  unfold storedByte
  rw [premultiply_unpremultiply tieUp _ a ha (premultiply_le c a hc)]

theorem storedByte_le (tieUp : Nat → Nat → Bool) (c a : Nat) : storedByte tieUp c a ≤ 255 :=
  unpremultiply_le tieUp _ a

theorem storedByte_zero (tieUp : Nat → Nat → Bool) (c : Nat) : storedByte tieUp c 0 = 0 := by
  simp [storedByte, unpremultiply]

/-! ## Grayscale through the handler -/

theorem gray_copy_cons (sr sg sb sa : Nat) (rest zs : List Nat) :
    grayscaleLoop (compositeData (sr :: sg :: sb :: sa :: rest) (0 :: 0 :: 0 :: 0 :: zs)) =
      (if sa = 0 then [0, 0, 0, 0]
        else [min ((sr + sg + sb) / 3) 255, min ((sr + sg + sb) / 3) 255,
          min ((sr + sg + sb) / 3) 255, sa]) ++
        grayscaleLoop (compositeData rest zs) := by
  rw [compositeData_cons, sourceOver_blank]
  by_cases ha : sa = 0
  · rw [if_pos ha, if_pos ha]
    simp only [List.cons_append, List.nil_append]
    rw [grayscaleLoop_cons, toUint8Clamp_one]
    simp [ha]
  · rw [if_neg ha, if_neg ha]
    simp only [List.cons_append, List.nil_append]
    rw [grayscaleLoop_cons, toUint8Clamp_one]

theorem storeData_zeros (tieUp : Nat → Nat → Bool) (n : Nat) :
    storeData tieUp (List.replicate (4 * n) 0) = List.replicate (4 * n) 0 := by
  induction n with
  | zero => rfl
  | succ n ih =>
    rw [replicate_four_succ, storeData_cons, storedByte_zero, ih]

theorem pipeline_short (tieUp : Nat → Nat → Bool) (n : Nat) (src : List Nat)
    (h : src.length < 4) :
    storeData tieUp (grayscaleLoop (compositeData src (List.replicate (4 * n) 0))) =
      List.replicate (4 * n) 0 := by
  rw [compositeData_short _ _ h, grayscaleLoop_zeros, storeData_zeros]

theorem pipeline_cons (tieUp : Nat → Nat → Bool) (n : Nat) (r g b a : Nat)
    (rest : List Nat) :
    storeData tieUp (grayscaleLoop
        (compositeData (r :: g :: b :: a :: rest) (List.replicate (4 * (n + 1)) 0))) =
      (if a = 0 then [0, 0, 0, 0]
        else [storedByte tieUp (min ((r + g + b) / 3) 255) a,
          storedByte tieUp (min ((r + g + b) / 3) 255) a,
          storedByte tieUp (min ((r + g + b) / 3) 255) a, a]) ++
        storeData tieUp
          (grayscaleLoop (compositeData rest (List.replicate (4 * n) 0))) := by
  rw [replicate_four_succ, gray_copy_cons]
  by_cases ha : a = 0
  · rw [if_pos ha, if_pos ha]
    show storeData tieUp (0 :: 0 :: 0 :: 0 :: _) = _
    rw [storeData_cons, storedByte_zero]
    rfl
  · rw [if_neg ha, if_neg ha]
    show storeData tieUp (_ :: _ :: _ :: a :: _) = _
    rw [storeData_cons]
    rfl

theorem pipeline_idem (tieUp : Nat → Nat → Bool) (n : Nat) (src : List Nat)
    (hsrc : ∀ v ∈ src, v ≤ 255) :
    storeData tieUp (grayscaleLoop (compositeData
        (storeData tieUp (grayscaleLoop (compositeData src (List.replicate (4 * n) 0))))
        (List.replicate (4 * n) 0))) =
      storeData tieUp (grayscaleLoop (compositeData src (List.replicate (4 * n) 0))) := by
  induction n generalizing src with
  | zero => simp [compositeData_nil, grayscaleLoop, storeData]
  | succ n ih =>
    by_cases hlen : src.length < 4
    · rw [pipeline_short tieUp _ _ hlen, compositeData_zeros, grayscaleLoop_zeros,
        storeData_zeros]
    · rcases src with _ | ⟨r, _ | ⟨g, _ | ⟨b, _ | ⟨a, rest⟩⟩⟩⟩
      · exact absurd (by simp) hlen
      · exact absurd (by simp) hlen
      · exact absurd (by simp) hlen
      · exact absurd (by simp) hlen
      · have hrest : ∀ v ∈ rest, v ≤ 255 := fun v hv => hsrc v (by simp [hv])
        have ha255 : a ≤ 255 := hsrc a (by simp)
        rw [pipeline_cons]
        by_cases ha : a = 0
        · rw [if_pos ha]
          simp only [List.cons_append, List.nil_append]
          rw [pipeline_cons, if_pos rfl, ih rest hrest]
          rfl
        · rw [if_neg ha]
          simp only [List.cons_append, List.nil_append]
          rw [pipeline_cons, if_neg ha, ih rest hrest]
          have hu := storedByte_le tieUp (min ((r + g + b) / 3) 255) a
          have h3 : min ((storedByte tieUp (min ((r + g + b) / 3) 255) a +
              storedByte tieUp (min ((r + g + b) / 3) 255) a +
              storedByte tieUp (min ((r + g + b) / 3) 255) a) / 3) 255 =
              storedByte tieUp (min ((r + g + b) / 3) 255) a := by omega
          rw [h3, storedByte_idem tieUp _ a (Nat.min_le_right _ _) ha255]
          rfl

theorem onGrayscaleClick_ok (tieUp : Nat → Nat → Bool) (s : App) (top : Layer)
    (htop : s.undoStack.getLast? = some top)
    (hw : top.canvas.width ≠ 0) (hh : top.canvas.height ≠ 0) :
    onGrayscaleClick tieUp s = .ok
      { undoStack := s.undoStack ++
          [{ canvas := { width := top.canvas.width, height := top.canvas.height,
                         data := storeData tieUp (grayscaleLoop (canvasCopy top.canvas)) },
             type := top.type }],
        redoStack := s.redoStack } := by
  have hlen := length_pos_of_getLast? _ _ htop
  simp [onGrayscaleClick, hlen, createNextLayer_ok s top htop hw hh, grayscaleCanvas_ok, hw,
    hh, bind, Except.bind, pure, Except.pure, canvasCopy]

theorem filterCanvas_grayscale (tieUp : Nat → Nat → Bool) (blurPasses : Canvas → Canvas)
    (c : Canvas) (hw : c.width ≠ 0) (hh : c.height ≠ 0) :
    filterCanvas tieUp blurPasses .grayscale c = .ok
      { width := c.width, height := c.height,
        data := storeData tieUp (grayscaleLoop
          (compositeData c.data (List.replicate (4 * (c.width * c.height)) 0))) } := by
  have hc := createNextLayer_ok
    { undoStack := [{ canvas := c, type := "" }], redoStack := [] }
    { canvas := c, type := "" } rfl hw hh
  simp only at hc
  simp [filterCanvas, applyFilter, onGrayscaleClick, hc, grayscaleCanvas_ok, hw, hh, bind,
    Except.bind, pure, Except.pure, Nat.mul_comm]

theorem storeData_le (tieUp : Nat → Nat → Bool) (n : Nat) (data : List Nat)
    (hlen : data.length = 4 * n) (h : ∀ v ∈ data, v ≤ 255) :
    ∀ v ∈ storeData tieUp data, v ≤ 255 := by
  induction n generalizing data with
  | zero =>
    have h0 : data = [] := List.length_eq_zero.mp (by simpa using hlen)
    subst h0
    intro v hv
    simp [storeData] at hv
  | succ n ih =>
    rcases data with _ | ⟨r, _ | ⟨g, _ | ⟨b, _ | ⟨a, rest⟩⟩⟩⟩
    · simp at hlen
    · simp at hlen; omega
    · simp at hlen; omega
    · simp at hlen; omega
    · have hr : rest.length = 4 * n := by simp at hlen; omega
      rw [storeData_cons]
      intro v hv
      simp only [List.mem_cons] at hv
      rcases hv with hv | hv | hv | hv | hv
      · rw [hv]; exact storedByte_le _ _ _
      · rw [hv]; exact storedByte_le _ _ _
      · rw [hv]; exact storedByte_le _ _ _
      · rw [hv]; exact h a (by simp)
      · exact ih rest hr (fun w hw => h w (by simp [hw])) v hv

/-- C4. Grayscale is idempotent on buffers of bytes: whenever the grayscale
filter produces a buffer `b1` from `b`, the filter applied to `b1` produces `b1`
again, byte for byte, whichever way the canvas rounds a half when it returns
premultiplied colour; and the filter does produce a buffer from every `b` of
non-zero width and height. -/
theorem grayscale_idempotent (tieUp : Nat → Nat → Bool) (blurPasses : Canvas → Canvas)
    (b : Canvas) (hb : ∀ v ∈ b.data, v ≤ 255) :
    (b.width ≠ 0 → b.height ≠ 0 →
      ∃ b1, filterCanvas tieUp blurPasses .grayscale b = .ok b1) ∧
    ∀ b1, filterCanvas tieUp blurPasses .grayscale b = .ok b1 →
      filterCanvas tieUp blurPasses .grayscale b1 = .ok b1 := by
  refine ⟨fun hw hh => ⟨_, filterCanvas_grayscale tieUp blurPasses b hw hh⟩, ?_⟩
  intro b1 h1
  by_cases hz : b.width = 0 ∨ b.height = 0
  · rw [filterCanvas_error tieUp blurPasses _ b hz] at h1
    cases h1
  · have hw : b.width ≠ 0 := fun h => hz (Or.inl h)
    have hh : b.height ≠ 0 := fun h => hz (Or.inr h)
    rw [filterCanvas_grayscale tieUp blurPasses b hw hh] at h1
    cases h1
    have h2 := filterCanvas_grayscale tieUp blurPasses
      { width := b.width, height := b.height,
        data := storeData tieUp (grayscaleLoop
          (compositeData b.data (List.replicate (4 * (b.width * b.height)) 0))) } hw hh
    rw [h2]
    simp only [pipeline_idem tieUp _ _ hb]

/-- Witness of C4 on a 2x1 buffer with a half-transparent and an almost
transparent pixel, for the tie rule that rounds down: the filter returns a
buffer, and returns the same buffer when applied to it. -/
theorem grayscale_idempotent_witness :
    (∃ b1, filterCanvas halfDown id .grayscale faintPair = .ok b1) ∧
      filterCanvas halfDown id .grayscale faintPairGray = .ok faintPairGray :=
  ⟨(grayscale_idempotent halfDown id faintPair (by decide)).1 (by decide) (by decide),
   (grayscale_idempotent halfDown id faintPair (by decide)).2 faintPairGray rfl⟩

theorem pipeline_length (tieUp : Nat → Nat → Bool) (n : Nat) (src : List Nat) :
    (storeData tieUp
      (grayscaleLoop (compositeData src (List.replicate (4 * n) 0)))).length = 4 * n := by
  induction n generalizing src with
  | zero => simp [compositeData_nil, grayscaleLoop, storeData]
  | succ n ih =>
    by_cases hlen : src.length < 4
    · rw [pipeline_short tieUp _ _ hlen, List.length_replicate]
    · rcases src with _ | ⟨r, _ | ⟨g, _ | ⟨b, _ | ⟨a, rest⟩⟩⟩⟩
      · exact absurd (by simp) hlen
      · exact absurd (by simp) hlen
      · exact absurd (by simp) hlen
      · exact absurd (by simp) hlen
      · rw [pipeline_cons, List.length_append, ih rest]
        split <;> simp <;> omega

theorem pipeline_getD (tieUp : Nat → Nat → Bool) (n p : Nat) (src : List Nat)
    (hsrc : ∀ v ∈ src, v ≤ 255) (hp : 4 * p + 3 < src.length) (hpn : p < n) :
    (storeData tieUp (grayscaleLoop
        (compositeData src (List.replicate (4 * n) 0)))).getD (4 * p + 3) 0 =
      src.getD (4 * p + 3) 0 ∧
    (storeData tieUp (grayscaleLoop
        (compositeData src (List.replicate (4 * n) 0)))).getD (4 * p + 1) 0 =
      (storeData tieUp (grayscaleLoop
        (compositeData src (List.replicate (4 * n) 0)))).getD (4 * p) 0 ∧
    (storeData tieUp (grayscaleLoop
        (compositeData src (List.replicate (4 * n) 0)))).getD (4 * p + 2) 0 =
      (storeData tieUp (grayscaleLoop
        (compositeData src (List.replicate (4 * n) 0)))).getD (4 * p) 0 ∧
    (src.getD (4 * p + 3) 0 = 255 →
      (storeData tieUp (grayscaleLoop
          (compositeData src (List.replicate (4 * n) 0)))).getD (4 * p) 0 =
        (src.getD (4 * p) 0 + src.getD (4 * p + 1) 0 + src.getD (4 * p + 2) 0) / 3) := by
  induction n generalizing src p with
  | zero => omega
  | succ n ih =>
    rcases src with _ | ⟨r, _ | ⟨g, _ | ⟨b, _ | ⟨a, rest⟩⟩⟩⟩
    · exfalso; simp only [List.length_nil] at hp; omega
    · exfalso; simp only [List.length_cons, List.length_nil] at hp; omega
    · exfalso; simp only [List.length_cons, List.length_nil] at hp; omega
    · exfalso; simp only [List.length_cons, List.length_nil] at hp; omega
    · have hrest : ∀ v ∈ rest, v ≤ 255 := fun v hv => hsrc v (by simp [hv])
      rw [pipeline_cons]
      rcases p with _ | p
      · have hr : r ≤ 255 := hsrc r (by simp)
        have hg : g ≤ 255 := hsrc g (by simp)
        have hb : b ≤ 255 := hsrc b (by simp)
        have hl : min ((r + g + b) / 3) 255 = (r + g + b) / 3 := by omega
        by_cases ha : a = 0
        · rw [if_pos ha]
          subst ha
          refine ⟨rfl, rfl, rfl, ?_⟩
          intro h
          exact absurd (show (0 : Nat) = 255 from h) (by decide)
        · rw [if_neg ha]
          refine ⟨rfl, rfl, rfl, ?_⟩
          intro h
          have h255 : a = 255 := h
          subst h255
          show storedByte tieUp (min ((r + g + b) / 3) 255) 255 = (r + g + b) / 3
          rw [hl, storedByte_full tieUp _ (by omega)]
      · have hp2 : 4 * p + 3 < rest.length := by
          simp only [List.length_cons] at hp; omega
        have e0 : 4 * (p + 1) = 4 * p + 1 + 1 + 1 + 1 := by ring
        have e1 : 4 * (p + 1) + 1 = 4 * p + 1 + 1 + 1 + 1 + 1 := by ring
        have e2 : 4 * (p + 1) + 2 = 4 * p + 2 + 1 + 1 + 1 + 1 := by ring
        have e3 : 4 * (p + 1) + 3 = 4 * p + 3 + 1 + 1 + 1 + 1 := by ring
        have hshift : ∀ (i : Nat) (tl : List Nat),
            ((if a = 0 then [0, 0, 0, 0]
              else [storedByte tieUp (min ((r + g + b) / 3) 255) a,
                storedByte tieUp (min ((r + g + b) / 3) 255) a,
                storedByte tieUp (min ((r + g + b) / 3) 255) a, a]) ++ tl).getD
              (i + 1 + 1 + 1 + 1) 0 = tl.getD i 0 := by
          intro i tl
          split <;> rfl
        rw [e1, e2, e3, e0]
        simp only [hshift, List.getD_cons_succ]
        exact ih p rest hrest hp2 (by omega)

/-- C5, as stated, fails on a pixel that is not opaque.  The 1x1 buffer
`(170, 170, 255, 3)` has `L = (170 + 170 + 255) / 3 = 198`, but the filter
leaves `(170, 170, 170, 3)`: the bitmap holds 198 premultiplied by alpha 3 as
2, which reads back as 170, whichever way a half is rounded. -/
theorem grayscale_pixels_counterexample :
    filterCanvas halfUp id .grayscale faintPixel =
        .ok { width := 1, height := 1, data := [170, 170, 170, 3] } ∧
      filterCanvas halfDown id .grayscale faintPixel =
        .ok { width := 1, height := 1, data := [170, 170, 170, 3] } ∧
      (faintPixel.data.getD 0 0 + faintPixel.data.getD 1 0 + faintPixel.data.getD 2 0) / 3 =
        198 := by
  refine ⟨rfl, rfl, rfl⟩

/-- C5, amended. For every well-formed buffer of non-zero width and height the
grayscale filter returns a buffer of the same dimensions and byte count in
which every pixel `(R, G, B, A)` has kept its alpha `A` and has three equal
colour bytes; for a fully opaque pixel (`A = 255`) they are
`L = (R + G + B) / 3` rounded down, so that the pixel has become
`(L, L, L, 255)`.  On the uploaded 2x2 sample the filter button leaves
`(85,85,85,255)` three times and `(255,255,255,255)` on top of `undoStack`. -/
theorem grayscale_pixels (tieUp : Nat → Nat → Bool) (blurPasses : Canvas → Canvas) :
    (∀ c : Canvas, c.WF → c.width ≠ 0 → c.height ≠ 0 →
      ∃ out : Canvas, filterCanvas tieUp blurPasses .grayscale c = .ok out ∧
        out.width = c.width ∧ out.height = c.height ∧
        out.data.length = c.data.length ∧
        ∀ p, p < c.width * c.height →
          out.data.getD (4 * p + 3) 0 = c.data.getD (4 * p + 3) 0 ∧
          out.data.getD (4 * p + 1) 0 = out.data.getD (4 * p) 0 ∧
          out.data.getD (4 * p + 2) 0 = out.data.getD (4 * p) 0 ∧
          (c.data.getD (4 * p + 3) 0 = 255 →
            out.data.getD (4 * p) 0 =
              (c.data.getD (4 * p) 0 + c.data.getD (4 * p + 1) 0 +
                c.data.getD (4 * p + 2) 0) / 3)) ∧
    (run tieUp blurPasses (onSelectImage sampleLayer App.empty)
        [.filter .grayscale]).undoStack = [sampleLayer, sampleGrayLayer] := by
  constructor
  · intro c hwf hw hh
    refine ⟨_, filterCanvas_grayscale tieUp blurPasses c hw hh, rfl, rfl, ?_, ?_⟩
    · rw [pipeline_length, hwf.1]; ring
    · intro p hp
      have hlen : 4 * p + 3 < c.data.length := by rw [hwf.1]; omega
      exact pipeline_getD tieUp (c.width * c.height) p c.data hwf.2 hlen hp
  · have hs := onGrayscaleClick_ok tieUp (onSelectImage sampleLayer App.empty) sampleLayer
      rfl (by decide) (by decide)
    have hd : storeData tieUp (grayscaleLoop (canvasCopy sampleLayer.canvas)) =
        sampleGrayLayer.canvas.data := by
      have e : grayscaleLoop (canvasCopy sampleLayer.canvas) =
          (List.range 4).flatMap fun i =>
            [if i = 3 then 255 else 85, if i = 3 then 255 else 85,
              if i = 3 then 255 else 85, 255] := by decide
      rw [e, storeData_full tieUp (List.range 4) _ _ _
        (fun i => by split <;> decide) (fun i => by split <;> decide)
        (fun i => by split <;> decide)]
      decide
    rw [hd] at hs
    simp only [run, List.foldl, step, applyFilter, hs]
    rfl

/-- Witness of the amended C5: the general part at the 2x2 sample. -/
theorem grayscale_pixels_witness :
    sample2x2.WF ∧
      ∃ out : Canvas, filterCanvas halfUp id .grayscale sample2x2 = .ok out ∧
        out.width = sample2x2.width ∧ out.height = sample2x2.height ∧
        out.data.length = sample2x2.data.length ∧
        ∀ p, p < sample2x2.width * sample2x2.height →
          out.data.getD (4 * p + 3) 0 = sample2x2.data.getD (4 * p + 3) 0 ∧
          out.data.getD (4 * p + 1) 0 = out.data.getD (4 * p) 0 ∧
          out.data.getD (4 * p + 2) 0 = out.data.getD (4 * p) 0 ∧
          (sample2x2.data.getD (4 * p + 3) 0 = 255 →
            out.data.getD (4 * p) 0 =
              (sample2x2.data.getD (4 * p) 0 + sample2x2.data.getD (4 * p + 1) 0 +
                sample2x2.data.getD (4 * p + 2) 0) / 3) :=
  ⟨by decide, (grayscale_pixels halfUp id).1 sample2x2 (by decide) (by decide) (by decide)⟩

/-! ## Edge detection through the handler -/

theorem compositeData_blank_le (n : Nat) (src : List Nat) (hsrc : ∀ v ∈ src, v ≤ 255) :
    ∀ v ∈ compositeData src (List.replicate (4 * n) 0), v ≤ 255 := by
  induction n generalizing src with
  | zero =>
    intro v hv
    simp [compositeData_nil] at hv
  | succ n ih =>
    by_cases hlen : src.length < 4
    · rw [compositeData_short _ _ hlen]
      intro v hv
      rw [List.eq_of_mem_replicate hv]
      decide
    · rcases src with _ | ⟨r, _ | ⟨g, _ | ⟨b, _ | ⟨a, rest⟩⟩⟩⟩
      · exact absurd (by simp) hlen
      · exact absurd (by simp) hlen
      · exact absurd (by simp) hlen
      · exact absurd (by simp) hlen
      · rw [replicate_four_succ, compositeData_cons, sourceOver_blank]
        intro v hv
        rw [List.mem_append] at hv
        rcases hv with hv | hv
        · by_cases ha : a = 0
          · rw [if_pos ha] at hv
            simp only [List.mem_cons, List.mem_singleton, List.not_mem_nil, or_false,
              or_self] at hv
            omega
          · rw [if_neg ha] at hv
            exact hsrc v (by
              simp only [List.mem_cons, List.mem_singleton, List.not_mem_nil,
                or_false] at hv
              rcases hv with h | h | h | h <;> simp [h])
        · exact ih rest (fun w hw => hsrc w (by simp [hw])) v hv

theorem compositeData_blank_getD (n p k : Nat) (src : List Nat)
    (hp : 4 * p + 3 < src.length) (hpn : p < n) (hk : k < 4) :
    (compositeData src (List.replicate (4 * n) 0)).getD (4 * p + k) 0 =
      if src.getD (4 * p + 3) 0 = 0 then 0 else src.getD (4 * p + k) 0 := by
  induction n generalizing src p with
  | zero => omega
  | succ n ih =>
    rcases src with _ | ⟨r, _ | ⟨g, _ | ⟨b, _ | ⟨a, rest⟩⟩⟩⟩
    · exfalso; simp only [List.length_nil] at hp; omega
    · exfalso; simp only [List.length_cons, List.length_nil] at hp; omega
    · exfalso; simp only [List.length_cons, List.length_nil] at hp; omega
    · exfalso; simp only [List.length_cons, List.length_nil] at hp; omega
    · rw [replicate_four_succ, compositeData_cons, sourceOver_blank]
      rcases p with _ | p
      · show _ = if a = 0 then 0 else _
        by_cases ha : a = 0
        · rw [if_pos ha, if_pos ha]
          rcases k with _ | _ | _ | _ | k
          · rfl
          · rfl
          · rfl
          · rfl
          · omega
        · rw [if_neg ha, if_neg ha]
          rcases k with _ | _ | _ | _ | k
          · rfl
          · rfl
          · rfl
          · rfl
          · omega
      · have hp2 : 4 * p + 3 < rest.length := by
          simp only [List.length_cons] at hp; omega
        have e3 : 4 * (p + 1) + 3 = 4 * p + 3 + 1 + 1 + 1 + 1 := by ring
        have ek : 4 * (p + 1) + k = 4 * p + k + 1 + 1 + 1 + 1 := by ring
        have hshift : ∀ (i : Nat) (tl : List Nat),
            ((if a = 0 then [0, 0, 0, 0] else [r, g, b, a]) ++ tl).getD
              (i + 1 + 1 + 1 + 1) 0 = tl.getD i 0 := by
          intro i tl
          split <;> rfl
        rw [e3, ek, hshift]
        simp only [List.getD_cons_succ]
        exact ih p rest hp2 (by omega)

theorem canvasCopy_le (c : Canvas) (hc : ∀ v ∈ c.data, v ≤ 255) :
    ∀ v ∈ canvasCopy c, v ≤ 255 := by
  unfold canvasCopy
  rw [Nat.mul_comm]
  exact compositeData_blank_le _ _ hc

theorem canvasCopy_getD (c : Canvas) (hlen : c.data.length = c.width * c.height * 4)
    (p k : Nat) (hp : p < c.width * c.height) (hk : k < 4) :
    (canvasCopy c).getD (4 * p + k) 0 =
      if c.data.getD (4 * p + 3) 0 = 0 then 0 else c.data.getD (4 * p + k) 0 := by
  unfold canvasCopy
  rw [Nat.mul_comm (c.width * c.height) 4]
  exact compositeData_blank_getD _ p k c.data (by omega) hp hk

theorem sobel_entry (pixels : ImageData) (weights : List Int)
    (hsrc : ∀ v ∈ pixels.data, v ≤ 255) (hlen : weights.length = 9)
    (hB : ∀ w ∈ weights, w.natAbs ≤ 2) (x y : Nat) (hx : x < pixels.width)
    (hy : y < pixels.height) :
    (convoluteFloat32 pixels weights false).data.getD ((y * pixels.width + x) * 4) 0 =
      convSum pixels.data pixels.width pixels.height weights 3 1 x y 0 := by
  have hside : roundSqrt weights.length = 3 := by
    rw [hlen]
    exact roundSqrt_sq 3
  have h := convoluteFloat32_getD pixels weights false x y 0 hx hy (by decide)
  rw [hside, Nat.add_zero] at h
  obtain ⟨e, hb⟩ := convAcc_exact pixels.data pixels.width pixels.height weights 3 1
    x y 0 2 hsrc hB (by decide)
  rw [h]
  simp only [convPixel, List.getD_cons_zero]
  rw [e, toFloat32_small _ (lt_of_le_of_lt hb (by decide))]

/-- C8, as stated, fails on the 1x2 buffer with a black pixel above a white
one: at pixel 0 the vertical accumulation is 1020 but the filter stores the red
byte 255, and it stores the blue byte 255, which is not a quarter of the stored
red plus green (255 + 0). -/
theorem edges_channels_counterexample :
    filterCanvas halfUp id .edges blackOverWhite =
        .ok { width := 1, height := 2, data := [255, 0, 255, 255, 255, 0, 255, 255] } ∧
      ((convoluteFloat32 { width := 1, height := 2, data := canvasCopy blackOverWhite }
          sobelVertical false).data.getD 0 0).natAbs = 1020 ∧
      ([255, 0, 255, 255, 255, 0, 255, 255] : List Nat).getD 0 0 ≠ 1020 ∧
      4 * ([255, 0, 255, 255, 255, 0, 255, 255] : List Nat).getD 2 0 ≠
        ([255, 0, 255, 255, 255, 0, 255, 255] : List Nat).getD 0 0 +
          ([255, 0, 255, 255, 255, 0, 255, 255] : List Nat).getD 1 0 ∧
      ([255, 0, 255, 255, 255, 0, 255, 255] : List Nat).getD 2 0 ≠
        (([255, 0, 255, 255, 255, 0, 255, 255] : List Nat).getD 0 0 +
          ([255, 0, 255, 255, 255, 0, 255, 255] : List Nat).getD 1 0) / 4 := by
  refine ⟨rfl, by decide, ?_, ?_, ?_⟩ <;> decide

/-- C8, amended. For every well-formed buffer of non-zero width and height and
every pixel `(x, y)`, let `V` and `H` be the red entries at that pixel of the
vertical-kernel and the horizontal-kernel convolution of the input as
`createNextLayer` copies it (the input itself, except that a fully transparent
pixel is copied as `(0, 0, 0, 0)`); each is the weighted sum of the red bytes
read for the nine kernel cells.  The edge-detection filter stores
`R = min |V| 255`, `G = min |H| 255` and `B` = `(|V| + |H|) / 4` taken on the
unclamped magnitudes, rounded to the nearest integer (a half to the even
neighbour) and capped at 255. -/
theorem edges_channels (tieUp : Nat → Nat → Bool) (blurPasses : Canvas → Canvas)
    (c : Canvas) (hwf : c.WF) (hw : c.width ≠ 0) (hh : c.height ≠ 0) :
    ∃ out : Canvas, filterCanvas tieUp blurPasses .edges c = .ok out ∧
      out.width = c.width ∧ out.height = c.height ∧
      (∀ p k, p < c.width * c.height → k < 4 →
        (canvasCopy c).getD (4 * p + k) 0 =
          if c.data.getD (4 * p + 3) 0 = 0 then 0 else c.data.getD (4 * p + k) 0) ∧
      ∀ x y, x < c.width → y < c.height →
        ∃ V H : Int,
          V = (convoluteFloat32
                { width := c.width, height := c.height, data := canvasCopy c }
                sobelVertical false).data.getD ((y * c.width + x) * 4) 0 ∧
          V = convSum (canvasCopy c) c.width c.height sobelVertical 3 1 x y 0 ∧
          H = (convoluteFloat32
                { width := c.width, height := c.height, data := canvasCopy c }
                sobelHorizontal false).data.getD ((y * c.width + x) * 4) 0 ∧
          H = convSum (canvasCopy c) c.width c.height sobelHorizontal 3 1 x y 0 ∧
          out.data.getD ((y * c.width + x) * 4) 0 = min V.natAbs 255 ∧
          out.data.getD ((y * c.width + x) * 4 + 1) 0 = min H.natAbs 255 ∧
          out.data.getD ((y * c.width + x) * 4 + 2) 0 =
            toUint8Clamp (V.natAbs + H.natAbs) 4 := by
  refine ⟨_, filterCanvas_edges tieUp blurPasses c hw hh, rfl, rfl,
    fun p k hp hk => canvasCopy_getD c hwf.1 p k hp hk, ?_⟩
  intro x y hx hy
  have hp : y * c.width + x < c.width * c.height := by
    have := index_lt c.width c.height x y 0 hx hy (by decide)
    omega
  have hcopy := canvasCopy_le c hwf.2
  have hV := sobel_entry { width := c.width, height := c.height, data := canvasCopy c }
    sobelVertical hcopy rfl (by decide) x y hx hy
  have hH := sobel_entry { width := c.width, height := c.height, data := canvasCopy c }
    sobelHorizontal hcopy rfl (by decide) x y hx hy
  have e4 : 4 * (y * c.width + x) = (y * c.width + x) * 4 := by ring
  refine ⟨_, _, rfl, hV, rfl, hH, ?_, ?_, ?_⟩
  · have h := edgesLoop_getD
      (convoluteFloat32 { width := c.width, height := c.height, data := canvasCopy c }
        sobelVertical false)
      (convoluteFloat32 { width := c.width, height := c.height, data := canvasCopy c }
        sobelHorizontal false) (c.width * c.height) (y * c.width + x) 0 hp (by decide)
    rw [e4] at h
    rw [← toUint8Clamp_one]
    exact h
  · have h := edgesLoop_getD
      (convoluteFloat32 { width := c.width, height := c.height, data := canvasCopy c }
        sobelVertical false)
      (convoluteFloat32 { width := c.width, height := c.height, data := canvasCopy c }
        sobelHorizontal false) (c.width * c.height) (y * c.width + x) 1 hp (by decide)
    rw [e4] at h
    rw [← toUint8Clamp_one]
    exact h
  · have h := edgesLoop_getD
      (convoluteFloat32 { width := c.width, height := c.height, data := canvasCopy c }
        sobelVertical false)
      (convoluteFloat32 { width := c.width, height := c.height, data := canvasCopy c }
        sobelHorizontal false) (c.width * c.height) (y * c.width + x) 2 hp (by decide)
    rw [e4] at h
    exact h

/-- Witness of the amended C8 on the 1x2 black-over-white buffer. -/
theorem edges_channels_witness :
    blackOverWhite.WF ∧
      ∃ out : Canvas, filterCanvas halfUp id .edges blackOverWhite = .ok out ∧
        out.width = blackOverWhite.width ∧ out.height = blackOverWhite.height :=
  ⟨by decide,
   (edges_channels halfUp id blackOverWhite (by decide) (by decide) (by decide)).imp
     fun _ h => ⟨h.1, h.2.1, h.2.2.1⟩⟩

theorem convSum_sobel_const (src : List Nat) (sw sh x y : Nat) (r : Nat)
    (hw : 1 ≤ sw) (hh : 1 ≤ sh) (hr : ∀ p, p < sw * sh → src.getD (4 * p) 0 = r) :
    convSum src sw sh sobelVertical 3 1 x y 0 = 0 ∧
      convSum src sw sh sobelHorizontal 3 1 x y 0 = 0 := by
  have hread : ∀ cx cy, src.getD (srcOff sw sh 1 x y cx cy + 0) 0 = r := by
    intro cx cy
    obtain ⟨_, hx⟩ := clampIndex_eq sw ((x : Int) + cx - (1 : Nat)) hw
    obtain ⟨_, hy⟩ := clampIndex_eq sh ((y : Int) + cy - (1 : Nat)) hh
    have hlt := index_lt sw sh _ _ 0 hx hy (by decide)
    have e : srcOff sw sh 1 x y cx cy + 0 =
        4 * (clampIndex sh ((y : Int) + cy - (1 : Nat)) * sw +
          clampIndex sw ((x : Int) + cx - (1 : Nat))) := by
      unfold srcOff
      ring
    rw [e]
    apply hr
    omega
  have e3 : List.range 3 = [0, 1, 2] := rfl
  constructor
  · unfold convSum
    simp only [hread, e3, List.map_cons, List.map_nil, List.sum_cons, List.sum_nil]
    simp [sobelVertical]
    ring
  · unfold convSum
    simp only [hread, e3, List.map_cons, List.map_nil, List.sum_cons, List.sum_nil]
    simp [sobelHorizontal]

/-- C19, as stated, fails on a buffer with a fully transparent pixel.  Both
pixels of the 2x1 buffer `redWithHole` have the red byte 7, but the transparent
one is copied as `(0, 0, 0, 0)`, so the reds the edge pass reads differ and the
filter stores `(0, 28, 7, 255)` twice instead of `(0, 0, 0, 255)`. -/
theorem edges_of_constant_red_counterexample :
    (∀ p, p < redWithHole.width * redWithHole.height →
        redWithHole.data.getD (4 * p) 0 = 7) ∧
      filterCanvas halfUp id .edges redWithHole =
        .ok { width := 2, height := 1, data := [0, 28, 7, 255, 0, 28, 7, 255] } ∧
      pixelAt [0, 28, 7, 255, 0, 28, 7, 255] 2 0 0 ≠ [0, 0, 0, 255] := by
  refine ⟨by decide, rfl, by decide⟩

/-- C19, amended. For every well-formed buffer of width and height at least 1
whose pixels all have the same red byte `r`, and in which no pixel is fully
transparent unless `r = 0`, the edge-detection filter stores `(0, 0, 0, 255)`
at every position, borders included. -/
theorem edges_of_constant_red (tieUp : Nat → Nat → Bool) (blurPasses : Canvas → Canvas)
    (c : Canvas) (r : Nat) (hwf : c.WF) (hw : c.width ≠ 0) (hh : c.height ≠ 0)
    (hr : ∀ p, p < c.width * c.height → c.data.getD (4 * p) 0 = r)
    (ht : ∀ p, p < c.width * c.height → c.data.getD (4 * p + 3) 0 = 0 → r = 0) :
    ∃ out : Canvas, filterCanvas tieUp blurPasses .edges c = .ok out ∧
      out.width = c.width ∧ out.height = c.height ∧
      out.data.length = c.width * c.height * 4 ∧
      ∀ x y, x < c.width → y < c.height →
        pixelAt out.data out.width x y = [0, 0, 0, 255] := by
  refine ⟨_, filterCanvas_edges tieUp blurPasses c hw hh, rfl, rfl,
    edgesLoop_length _ _ _, ?_⟩
  intro x y hx hy
  have hp : y * c.width + x < c.width * c.height := by
    have := index_lt c.width c.height x y 0 hx hy (by decide)
    omega
  have hcopy := canvasCopy_le c hwf.2
  have hred : ∀ p, p < c.width * c.height → (canvasCopy c).getD (4 * p) 0 = r := by
    intro p hp
    have h := canvasCopy_getD c hwf.1 p 0 hp (by decide)
    rw [Nat.add_zero] at h
    rw [h]
    by_cases ha : c.data.getD (4 * p + 3) 0 = 0
    · rw [if_pos ha]
      exact (ht p hp ha).symm
    · rw [if_neg ha]
      exact hr p hp
  obtain ⟨hv, hhz⟩ := convSum_sobel_const (canvasCopy c) c.width c.height x y r
    (by omega) (by omega) hred
  have hV := sobel_entry { width := c.width, height := c.height, data := canvasCopy c }
    sobelVertical hcopy rfl (by decide) x y hx hy
  have hH := sobel_entry { width := c.width, height := c.height, data := canvasCopy c }
    sobelHorizontal hcopy rfl (by decide) x y hx hy
  have hV0 : (convoluteFloat32
      { width := c.width, height := c.height, data := canvasCopy c }
      sobelVertical false).data.getD (4 * (y * c.width + x)) 0 = 0 := by
    rw [show 4 * (y * c.width + x) = (y * c.width + x) * 4 by ring]
    exact hV.trans hv
  have hH0 : (convoluteFloat32
      { width := c.width, height := c.height, data := canvasCopy c }
      sobelHorizontal false).data.getD (4 * (y * c.width + x)) 0 = 0 := by
    rw [show 4 * (y * c.width + x) = (y * c.width + x) * 4 by ring]
    exact hH.trans hhz
  have hk : ∀ k, k < 4 →
      (edgesLoop
        (convoluteFloat32 { width := c.width, height := c.height, data := canvasCopy c }
          sobelVertical false)
        (convoluteFloat32 { width := c.width, height := c.height, data := canvasCopy c }
          sobelHorizontal false)
        (c.width * c.height)).getD ((y * c.width + x) * 4 + k) 0 =
      ([0, 0, 0, 255] : List Nat).getD k 0 := by
    intro k hk
    rw [edgesLoop_getD _ _ _ _ k hp hk, hV0, hH0]
    rfl
  have h0 := hk 0 (by decide)
  have h1 := hk 1 (by decide)
  have h2 := hk 2 (by decide)
  have h3 := hk 3 (by decide)
  rw [Nat.add_zero] at h0
  show pixelAt (edgesLoop
      (convoluteFloat32 { width := c.width, height := c.height, data := canvasCopy c }
        sobelVertical false)
      (convoluteFloat32 { width := c.width, height := c.height, data := canvasCopy c }
        sobelHorizontal false) (c.width * c.height)) c.width x y = _
  simp only [pixelAt]
  rw [h0, h1, h2, h3]
  rfl

/-- Witness of the amended C19 on the 2x2 buffer of four opaque pixels of red
byte 7. -/
theorem edges_of_constant_red_witness :
    ∃ out : Canvas, filterCanvas halfUp id .edges constantRed = .ok out ∧
      out.width = constantRed.width ∧ out.height = constantRed.height ∧
      out.data.length = constantRed.width * constantRed.height * 4 ∧
      ∀ x y, x < constantRed.width → y < constantRed.height →
        pixelAt out.data out.width x y = [0, 0, 0, 255] :=
  edges_of_constant_red halfUp id constantRed 7 (by decide) (by decide) (by decide)
    (by decide) (by decide)

end ImageProcessor

